import Mathlib

/-!
Verification of the scam-honeypot analysis pipeline of `src/main.py`.

The source is a single FastAPI handler `analyze` together with the helpers
`safe_json`, `regex_extract` and `get_honeypot`, a static persona table
`PERSONAS` and a process-wide `conversation_store`.  We embed the handler as a
pure function: the external oracle call (`genai` / `model.generate_content`) is
a parameter of type `Except String String` (an exception with its `str(e)`
text, or the reply text), and the mutable `conversation_store` is threaded
explicitly as an association list from conversation identifier to its `stage`
counter.  Python's `json.loads` is modelled by an executable JSON parser over
a `Json` value type (numbers become exact rationals), and the five
`re.findall` patterns are modelled by executable left-to-right scanners with
the same leftmost, greedy, non-overlapping semantics; `\w`, `\d`, `\S` and
case conversion are modelled over the ASCII range.
-/

set_option maxRecDepth 10000

/-- Values produced by `json.loads` (and the shape of the handler's response
dictionaries): null, booleans, numbers (exact rationals), strings, arrays and
objects with ordered fields. -/
inductive Json where
  | null : Json
  | bool : Bool → Json
  | num : ℚ → Json
  | str : String → Json
  | arr : List Json → Json
  | obj : List (String × Json) → Json

/-- Python truthiness (`bool(x)`) of a JSON value: `None`, `False`, `0`, `""`,
`[]` and `{}` are falsy, everything else truthy. -/
def jtruthy : Json → Bool
  | .null => false
  | .bool b => b
  | .num q => if q = 0 then false else true
  | .str s => !(s == "")
  | .arr xs => !xs.isEmpty
  | .obj fs => !fs.isEmpty

/-- Python truthiness of an optional value: `None` (absent) is falsy. -/
def jtruthyOpt : Option Json → Bool
  | none => false
  | some j => jtruthy j

/-- First field of the given name in an ordered field list (keys are unique
because insertion replaces an existing key, as in a Python dict). -/
def lookupField : List (String × Json) → String → Option Json
  | [], _ => none
  | (k, v) :: rest, key => if k = key then some v else lookupField rest key

/-- `d.get(key)` on a parsed object; `None` when the key is absent. -/
def jget (j : Json) (key : String) : Option Json :=
  match j with
  | .obj fs => lookupField fs key
  | _ => none

/-- Dict insertion `d[key] = v`: replace the value at an existing key in
place, else append the new field (Python dict semantics). -/
def insertField : List (String × Json) → String → Json → List (String × Json)
  | [], key, v => [(key, v)]
  | (k, w) :: rest, key, v =>
    if k = key then (k, v) :: rest else (k, w) :: insertField rest key v

/-- `d[key] = v` on a JSON value; only meaningful on objects (the handler only
assigns into parsed objects, so the other cases are unreachable). -/
def jset (j : Json) (key : String) (v : Json) : Json :=
  match j with
  | .obj fs => .obj (insertField fs key v)
  | other => other

/-- JSON whitespace skipping (space, tab, newline, carriage return), as in
Python's `json.loads`. -/
def skipWs : List Char → List Char
  | c :: rest =>
    if c = ' ' ∨ c = '\t' ∨ c = '\n' ∨ c = '\r' then skipWs rest else c :: rest
  | [] => []

/-- Value of a hexadecimal digit, for `\uXXXX` string escapes. -/
def hexDigitVal (c : Char) : Option Nat :=
  if '0' ≤ c ∧ c ≤ '9' then some (c.toNat - 48)
  else if 'a' ≤ c ∧ c ≤ 'f' then some (c.toNat - 87)
  else if 'A' ≤ c ∧ c ≤ 'F' then some (c.toNat - 55)
  else none

/-- Single-character JSON string escapes. -/
def escapeChar (c : Char) : Option Char :=
  if c = '"' then some '"'
  else if c = '\\' then some '\\'
  else if c = '/' then some '/'
  else if c = 'b' then some (Char.ofNat 8)
  else if c = 'f' then some (Char.ofNat 12)
  else if c = 'n' then some '\n'
  else if c = 'r' then some (Char.ofNat 13)
  else if c = 't' then some '\t'
  else none

/-- Body of a JSON string after the opening quote: returns the decoded
characters and the input after the closing quote.  Raw control characters
and invalid escapes are rejected, as in strict `json.loads`.  (Surrogate-pair
`\uXXXX` escapes are decoded codepoint-wise.) -/
def parseStringAux : List Char → Option (List Char × List Char)
  | [] => none
  | '"' :: rest => some ([], rest)
  | '\\' :: 'u' :: h1 :: h2 :: h3 :: h4 :: rest =>
    match hexDigitVal h1, hexDigitVal h2, hexDigitVal h3, hexDigitVal h4 with
    | some a, some b, some c, some d =>
      (parseStringAux rest).map
        (fun p => (Char.ofNat (((a * 16 + b) * 16 + c) * 16 + d) :: p.1, p.2))
    | _, _, _, _ => none
  | '\\' :: e :: rest =>
    match escapeChar e with
    | some c => (parseStringAux rest).map (fun p => (c :: p.1, p.2))
    | none => none
  | c :: rest =>
    if c.toNat < 32 then none
    else (parseStringAux rest).map (fun p => (c :: p.1, p.2))

/-- Decimal digits to a natural number. -/
def digitsToNat (ds : List Char) : Nat :=
  ds.foldl (fun n c => 10 * n + (c.toNat - 48)) 0

/-- JSON number at the head of the input, with the grammar of Python's
`json` scanner: `-?(0|[1-9]\d*)(\.\d+)?([eE][+-]?\d+)?`, longest match; the
value is the exact rational. -/
def parseNumber (cs : List Char) : Option (ℚ × List Char) :=
  let signAndRest : Bool × List Char :=
    match cs with
    | '-' :: rest => (true, rest)
    | _ => (false, cs)
  let neg := signAndRest.1
  let cs1 := signAndRest.2
  let intPart : Option (List Char × List Char) :=
    match cs1 with
    | '0' :: rest => some (['0'], rest)
    | c :: rest =>
      if '1' ≤ c ∧ c ≤ '9' then
        some (c :: rest.takeWhile Char.isDigit, rest.dropWhile Char.isDigit)
      else none
    | [] => none
  match intPart with
  | none => none
  | some (ds, rest1) =>
    let fracPart : List Char × List Char :=
      match rest1 with
      | '.' :: d :: rest2 =>
        if d.isDigit then
          (d :: rest2.takeWhile Char.isDigit, rest2.dropWhile Char.isDigit)
        else ([], rest1)
      | _ => ([], rest1)
    let fds := fracPart.1
    let rest2 := fracPart.2
    let expPart : Int × List Char :=
      match rest2 with
      | e :: '+' :: d :: rest4 =>
        if (e = 'e' ∨ e = 'E') ∧ d.isDigit then
          ((digitsToNat (d :: rest4.takeWhile Char.isDigit) : Int),
            rest4.dropWhile Char.isDigit)
        else (0, rest2)
      | e :: '-' :: d :: rest4 =>
        if (e = 'e' ∨ e = 'E') ∧ d.isDigit then
          (-(digitsToNat (d :: rest4.takeWhile Char.isDigit) : Int),
            rest4.dropWhile Char.isDigit)
        else (0, rest2)
      | e :: d :: rest4 =>
        if (e = 'e' ∨ e = 'E') ∧ d.isDigit then
          ((digitsToNat (d :: rest4.takeWhile Char.isDigit) : Int),
            rest4.dropWhile Char.isDigit)
        else (0, rest2)
      | _ => (0, rest2)
    let mant : Nat := digitsToNat (ds ++ fds)
    let e10 : Int := expPart.1 - (fds.length : Int)
    let mag : ℚ :=
      if 0 ≤ e10 then (mant : ℚ) * (10 : ℚ) ^ e10.toNat
      else (mant : ℚ) / (10 : ℚ) ^ (-e10).toNat
    some ((if neg then -mag else mag), expPart.2)

/-- Remove the (unique) field of the given name, if present. -/
def removeField : List (String × Json) → String → List (String × Json)
  | [], _ => []
  | (k, v) :: rest, key => if k = key then rest else (k, v) :: removeField rest key

/-- Combine one parsed `key: value` pair with the fields parsed after it,
giving Python-dict duplicate-key semantics: a duplicated key keeps its first
position but takes its last value. -/
def combineField (key : String) (v : Json) (fs : List (String × Json)) :
    List (String × Json) :=
  match lookupField fs key with
  | some v2 => (key, v2) :: removeField fs key
  | none => (key, v) :: fs

/-- Parsing mode of the recursive-descent JSON reader: a value, the items of
an array after its first non-`]` character, or the fields of an object after
its first non-`}` character. -/
inductive PMode where
  | val : PMode
  | arrItems : PMode
  | objItems : PMode

/-- Fuel-indexed recursive-descent JSON reader (the fuel only bounds nesting
of recursive calls; `jsonParse` supplies enough for any input). -/
def parseCore : Nat → PMode → List Char → Option (Json × List Char)
  | 0, _, _ => none
  | fuel + 1, .val, cs =>
    match cs with
    | 'n' :: 'u' :: 'l' :: 'l' :: rest => some (.null, rest)
    | 't' :: 'r' :: 'u' :: 'e' :: rest => some (.bool true, rest)
    | 'f' :: 'a' :: 'l' :: 's' :: 'e' :: rest => some (.bool false, rest)
    | '"' :: rest => (parseStringAux rest).map (fun p => (.str (String.mk p.1), p.2))
    | '[' :: rest =>
      (match skipWs rest with
       | ']' :: rest2 => some (.arr [], rest2)
       | rest2 => parseCore fuel .arrItems rest2)
    | '\x7b' :: rest =>
      (match skipWs rest with
       | '\x7d' :: rest2 => some (.obj [], rest2)
       | rest2 => parseCore fuel .objItems rest2)
    | c :: _ => if c = '-' ∨ c.isDigit then (parseNumber cs).map (fun p => (.num p.1, p.2)) else none
    | [] => none
  | fuel + 1, .arrItems, cs =>
    match parseCore fuel .val cs with
    | none => none
    | some (v, rest) =>
      match skipWs rest with
      | ',' :: rest2 =>
        (match parseCore fuel .arrItems (skipWs rest2) with
         | some (.arr vs, rest3) => some (.arr (v :: vs), rest3)
         | _ => none)
      | ']' :: rest2 => some (.arr [v], rest2)
      | _ => none
  | fuel + 1, .objItems, cs =>
    match cs with
    | '"' :: rest =>
      (match parseStringAux rest with
       | none => none
       | some (kcs, rest1) =>
         match skipWs rest1 with
         | ':' :: rest2 =>
           (match parseCore fuel .val (skipWs rest2) with
            | none => none
            | some (v, rest3) =>
              match skipWs rest3 with
              | ',' :: rest4 =>
                (match parseCore fuel .objItems (skipWs rest4) with
                 | some (.obj fs, rest5) =>
                   some (.obj (combineField (String.mk kcs) v fs), rest5)
                 | _ => none)
              | '\x7d' :: rest4 => some (.obj [(String.mk kcs, v)], rest4)
              | _ => none)
         | _ => none)
    | _ => none

/-- Python's `json.loads`: parse one JSON value, allowing surrounding
whitespace and nothing else; `none` models a raised `JSONDecodeError`.
(The non-standard `NaN`/`Infinity` extensions are not modelled.) -/
def jsonParse (s : String) : Option Json :=
  match parseCore (2 * s.length + 8) .val (skipWs s.data) with
  | some (j, rest) => if (skipWs rest).isEmpty then some j else none
  | none => none

/-- Index of the first occurrence of a character (`str.find`). -/
def charIdxOf : List Char → Char → Option Nat
  | [], _ => none
  | x :: rest, c => if x = c then some 0 else (charIdxOf rest c).map (· + 1)

/-- Index of the last occurrence of a character (`str.rfind`). -/
def charRIdxOf (cs : List Char) (c : Char) : Option Nat :=
  (charIdxOf cs.reverse c).map (fun i => cs.length - 1 - i)

/-- Python slice `s[a:b]` with possibly negative bounds and step 1. -/
def pySlice (cs : List Char) (a b : Int) : List Char :=
  let n : Int := cs.length
  let a' : Int := if a < 0 then max (n + a) 0 else min a n
  let b' : Int := if b < 0 then max (n + b) 0 else min b n
  if a' < b' then (cs.drop a'.toNat).take (b' - a').toNat else []

/-- `safe_json` of `src/main.py`: slice from the first `\x7b` (index `-1`
when absent, as `str.find` returns) to just after the last `\x7d` (index `0`
when absent), decode that slice, and return `None` on any failure. -/
def safe_json (text : String) : Option Json :=
  let cs := text.data
  let start : Int :=
    match charIdxOf cs '\x7b' with
    | some i => (i : Int)
    | none => -1
  let stop : Int :=
    match charRIdxOf cs '\x7d' with
    | some i => (i : Int) + 1
    | none => 0
  jsonParse (String.mk (pySlice cs start stop))

/-- Word character of the regex class `\w`, modelled over the ASCII range:
letters, digits and underscore. -/
def isWordChar (c : Char) : Bool :=
  c.isAlpha || c.isDigit || c = '_'

/-- Digit character of the regex class `\d` (ASCII). -/
def isDigitChar (c : Char) : Bool :=
  c.isDigit

/-- Whitespace of the regex class `\s` (so `\S` is its negation), modelled
over the ASCII range: space, tab, newline, carriage return, vertical tab and
form feed. -/
def isPySpace (c : Char) : Bool :=
  c = ' ' || c = '\t' || c = '\n' || c = '\x0d' || c = Char.ofNat 11 || c = Char.ofNat 12

/-- Character class `[\w\.-]` of the UPI pattern's local part. -/
def isLocalChar (c : Char) : Bool :=
  isWordChar c || c = '.' || c = '-'

/-- Character class `[\w-]` of the UPI pattern's domain part. -/
def isDomChar (c : Char) : Bool :=
  isWordChar c || c = '-'

/-- Drop a trailing run of hyphens: the backtracking of the greedy `[\w-]+`
against the final `\b` of the UPI pattern keeps the longest prefix ending in
a word character. -/
def dropTrailingHyphens (l : List Char) : List Char :=
  (l.reverse.dropWhile (fun c => c = '-')).reverse

/-- Single match attempt of `\b[\w\.-]+@[\w-]+\b` at the head of the input;
`prevW` says whether the character before the input position is a word
character (so `\b` holds iff the word-ness changes).  Returns the matched
characters and the rest of the input. -/
def upiTry (prevW : Bool) (cs : List Char) : Option (List Char × List Char) :=
  match cs.takeWhile isLocalChar with
  | [] => none
  | a :: tl =>
    if prevW = isWordChar a then none
    else
      match cs.drop (a :: tl).length with
      | '@' :: rest1 =>
        match dropTrailingHyphens (rest1.takeWhile isDomChar) with
        | [] => none
        | b :: btl =>
          some ((a :: tl) ++ '@' :: (b :: btl), rest1.drop (b :: btl).length)
      | _ => none

/-- Core of the phone pattern after the optional prefix: `[6-9]\d{9}`. -/
def phoneCore (cs : List Char) : Option (List Char × List Char) :=
  match cs with
  | c :: _ =>
    if '6' ≤ c ∧ c ≤ '9' then
      if (cs.take 10).length = 10 ∧ (cs.take 10).all isDigitChar then
        some (cs.take 10, cs.drop 10)
      else none
    else none
  | [] => none

/-- Single match attempt of `(?:\+91)?[6-9]\d{9}` at the head of the input
(the pattern has no boundary assertions, so the previous character is
ignored). -/
def phoneTry (_ : Bool) (cs : List Char) : Option (List Char × List Char) :=
  match cs with
  | '+' :: '9' :: '1' :: rest =>
    (phoneCore rest).map (fun p => ('+' :: '9' :: '1' :: p.1, p.2))
  | _ => phoneCore cs

/-- Single match attempt of `https?://\S+` at the head of the input. -/
def linkTry (_ : Bool) (cs : List Char) : Option (List Char × List Char) :=
  match cs with
  | 'h' :: 't' :: 't' :: 'p' :: 's' :: ':' :: '/' :: '/' :: rest =>
    (match rest.takeWhile (fun c => !isPySpace c) with
     | [] => none
     | t :: ttl =>
       some (['h', 't', 't', 'p', 's', ':', '/', '/'] ++ (t :: ttl),
         rest.drop (t :: ttl).length))
  | 'h' :: 't' :: 't' :: 'p' :: ':' :: '/' :: '/' :: rest =>
    (match rest.takeWhile (fun c => !isPySpace c) with
     | [] => none
     | t :: ttl =>
       some (['h', 't', 't', 'p', ':', '/', '/'] ++ (t :: ttl),
         rest.drop (t :: ttl).length))
  | _ => none

/-- Single match attempt of `\b\d{10,18}\b` at the head of the input: the
maximal digit run must have length 10 to 18 (a longer run cannot satisfy the
trailing `\b` under any backtracking) and both ends must be word boundaries. -/
def bankTry (prevW : Bool) (cs : List Char) : Option (List Char × List Char) :=
  if prevW then none
  else
    if (cs.takeWhile isDigitChar).length < 10 ∨ 18 < (cs.takeWhile isDigitChar).length then
      none
    else
      match cs.drop (cs.takeWhile isDigitChar).length with
      | [] => some (cs.takeWhile isDigitChar, [])
      | d :: rest =>
        if isWordChar d then none else some (cs.takeWhile isDigitChar, d :: rest)

/-- Uppercase letter test for the class `[A-Z]`. -/
def isUpperAlpha (c : Char) : Bool :=
  'A' ≤ c && c ≤ 'Z'

/-- Alphanumeric test for the class `[A-Z0-9]`. -/
def isUpperAlnum (c : Char) : Bool :=
  isUpperAlpha c || c.isDigit

/-- Single match attempt of `\b[A-Z]{4}0[A-Z0-9]{6}\b` at the head of the
input (fixed width, no backtracking). -/
def ifscTry (prevW : Bool) (cs : List Char) : Option (List Char × List Char) :=
  if prevW then none
  else
    match cs with
    | c0 :: c1 :: c2 :: c3 :: c4 :: c5 :: c6 :: c7 :: c8 :: c9 :: c10 :: rest =>
      if isUpperAlpha c0 ∧ isUpperAlpha c1 ∧ isUpperAlpha c2 ∧ isUpperAlpha c3 ∧
          c4 = '0' ∧ isUpperAlnum c5 ∧ isUpperAlnum c6 ∧ isUpperAlnum c7 ∧
          isUpperAlnum c8 ∧ isUpperAlnum c9 ∧ isUpperAlnum c10 then
        match rest with
        | [] => some ([c0, c1, c2, c3, c4, c5, c6, c7, c8, c9, c10], [])
        | d :: _ =>
          if isWordChar d then none
          else some ([c0, c1, c2, c3, c4, c5, c6, c7, c8, c9, c10], rest)
      else none
    | _ => none

/-- Left-to-right scan of `re.findall`: at each position attempt a match; on
success emit it and resume after it (non-overlapping), else advance one
character.  `prevW` tracks the word-ness of the character before the current
position for the `\b` assertions.  The fuel is an upper bound on the number
of scan steps; `findall` supplies `length + 1`, which suffices because every
step consumes at least one character. -/
def scanAllF (tryf : Bool → List Char → Option (List Char × List Char)) :
    Nat → Bool → List Char → List (List Char)
  | 0, _, _ => []
  | _ + 1, _, [] => []
  | fuel + 1, prevW, c :: rest =>
    match tryf prevW (c :: rest) with
    | some (m, rest2) => m :: scanAllF tryf fuel (isWordChar (m.getLastD c)) rest2
    | none => scanAllF tryf fuel (isWordChar c) rest

/-- `re.findall` for one of the five patterns, started at the beginning of
the input (no preceding character, so `prevW = false`). -/
def findall (tryf : Bool → List Char → Option (List Char × List Char))
    (cs : List Char) : List String :=
  (scanAllF tryf (cs.length + 1) false cs).map String.mk

/-- Python `str.upper()` over the ASCII range. -/
def pyToUpper (c : Char) : Char :=
  if 'a' ≤ c ∧ c ≤ 'z' then Char.ofNat (c.toNat - 32) else c

/-- The five entity lists returned by `regex_extract` of `src/main.py`, in
the order its dictionary lists them. -/
structure Extracted where
  upi_id : List String
  phone_number : List String
  phishing_link : List String
  bank_account : List String
  ifsc : List String

/-- `regex_extract` of `src/main.py`: the five `re.findall` calls (the IFSC
pattern runs on the upper-cased message). -/
def regex_extract (message : String) : Extracted :=
  { upi_id := findall upiTry message.data
    phone_number := findall phoneTry message.data
    phishing_link := findall linkTry message.data
    bank_account := findall bankTry message.data
    ifsc := findall ifscTry (message.data.map pyToUpper) }

/-- The static `PERSONAS` table of `src/main.py`: scam category name to its
ordered script of honeypot reply lines. -/
def PERSONAS : List (String × List String) :=
  [("Bank Fraud",
    ["Why is my account blocked? I use it daily.",
     "Which UPI ID should I send the money to?",
     "The app is asking for details again. Can you help?"]),
   ("UPI Fraud",
    ["I am confused about UPI. Can you explain?",
     "Please send the correct UPI ID.",
     "It says transaction failed. What should I do?"]),
   ("Job Scam",
    ["Is there really no interview?",
     "How much is the registration fee?",
     "Can I pay through UPI?"]),
   ("Lottery Scam",
    ["I don't remember entering any lottery!",
     "What is the processing fee?",
     "How will I receive the prize?"]),
   ("KYC Scam",
    ["My KYC is pending? I was not informed.",
     "Is this official bank message?",
     "Which details should I update?"]),
   ("Phishing",
    ["The link is not opening properly.",
     "Is this the official website?",
     "Should I login using my app instead?"])]

/-- `PERSONAS.get(scam_type)` — first (unique) entry with the given name. -/
def lookupPersona : List (String × List String) → String → Option (List String)
  | [], _ => none
  | (k, v) :: rest, key => if k = key then some v else lookupPersona rest key

/-- The fixed default honeypot reply used when a category has no script. -/
def defaultReply : String := "Can you explain this again?"

/-- `get_honeypot` of `src/main.py`: `PERSONAS.get(scam_type, [])`, the
default reply when that is empty, else the line at `stage % len(responses)`. -/
def get_honeypot (scam_type : String) (stage : Nat) : String :=
  let responses := (lookupPersona PERSONAS scam_type).getD []
  if responses.isEmpty then defaultReply
  else responses.getD (stage % responses.length) ""

/-- `get_honeypot` applied to an arbitrary JSON value for `scam_type` (the
handler passes `ai_json.get("scam_type", "Bank Fraud")` through unchecked):
a non-string hashable value matches no key of `PERSONAS`, so it yields the
default reply.  Unhashable values (arrays, objects) raise instead and are
filtered out before this function is reached. -/
def get_honeypotJ (scam_type : Json) (stage : Nat) : String :=
  match scam_type with
  | .str s => get_honeypot s stage
  | _ => defaultReply

/-- The process-wide `conversation_store`, modelled as an association list
from conversation identifier to that conversation's `stage` counter (each
stored dict `\x7b"stage": n\x7d` is represented by its counter `n`). -/
def Store := List (String × Nat)

/-- Stage stored for a conversation identifier, if present. -/
def lookupStage : List (String × Nat) → String → Option Nat
  | [], _ => none
  | (k, v) :: rest, sid => if k = sid then some v else lookupStage rest sid

/-- Store update `conversation_store[sid]["stage"] = n` (or creation of the
entry): replace in place, else append. -/
def setStage : List (String × Nat) → String → Nat → List (String × Nat)
  | [], sid, n => [(sid, n)]
  | (k, v) :: rest, sid, n =>
    if k = sid then (k, n) :: rest else (k, v) :: setStage rest sid n

/-- Effective stage of a conversation: the stored counter, or `0` when the
identifier has no entry yet (the value lazy creation would store). -/
def effStage (store : List (String × Nat)) (sid : String) : Nat :=
  (lookupStage store sid).getD 0

/-- Lazy creation step `if session_id not in conversation_store:
conversation_store[session_id] = {"stage": 0}`. -/
def initStore (store : List (String × Nat)) (sid : String) : List (String × Nat) :=
  match lookupStage store sid with
  | some _ => store
  | none => setStage store sid 0

/-- The fixed safety annotation attached to every completed response. -/
def ethicalNote : String := "Simulated environment only"

/-- The `extracted_entities` dictionary of the fallback response. -/
def entitiesJson (e : Extracted) : Json :=
  .obj [("upi_id", .arr (e.upi_id.map .str)),
        ("phone_number", .arr (e.phone_number.map .str)),
        ("phishing_link", .arr (e.phishing_link.map .str)),
        ("bank_account", .arr (e.bank_account.map .str)),
        ("ifsc", .arr (e.ifsc.map .str))]

/-- The `except Exception` response of `src/main.py`: a fixed "System Safe
Mode" result whose annotation embeds `str(e)` of the caught error. -/
def safeModeResp (e : String) : Json :=
  .obj [("is_scam", .bool true),
        ("scam_type", .str "System Safe Mode"),
        ("confidence", .num (0.4 : ℚ)),
        ("honeypot_response", .str "Please repeat the message."),
        ("extracted_entities", .obj []),
        ("ethical_note", .str ("Error handled safely: " ++ e))]

/-- The `-------- FALLBACK --------` block of `analyze` (the rule-based
classifier): given the message and the conversation's current stage, build
the response dictionary and the new stage value. -/
def fallbackBranch (message : String) (stage : Nat) : Json × Nat :=
  let extracted := regex_extract message
  let is_scam := !extracted.upi_id.isEmpty || !extracted.phishing_link.isEmpty
  let scam_type := if !extracted.phishing_link.isEmpty then "Phishing" else "Bank Fraud"
  let honeypot : Json :=
    if is_scam then .str (get_honeypot scam_type stage) else .null
  let stage2 := stage + (if is_scam then 1 else 0)
  (.obj [("is_scam", .bool is_scam),
         ("scam_type", .str (if is_scam then scam_type else "Not Scam")),
         ("confidence", .num (if is_scam then (0.7 : ℚ) else (0.2 : ℚ))),
         ("honeypot_response", honeypot),
         ("extracted_entities", entitiesJson extracted),
         ("ethical_note", .str ethicalNote)],
   stage2)

/-- The `-------- ALWAYS HONEYPOT IF SCAM --------` block of `analyze`: the
parsed (truthy) oracle object is returned with the safety annotation added;
when its `is_scam` is truthy, a honeypot line is written into it first and
the stage is advanced.  `PERSONAS.get` on an unhashable `scam_type` value
(array or object) raises a `TypeError`, modelled as the `.error` case with
its `str(e)` text. -/
def aiBranch (ai_json : Json) (stage : Nat) : Except String (Json × Nat) :=
  if jtruthyOpt (jget ai_json "is_scam") then
    match (jget ai_json "scam_type").getD (.str "Bank Fraud") with
    | .arr _ => .error "unhashable type: 'list'"
    | .obj _ => .error "unhashable type: 'dict'"
    | st =>
      let j1 := jset ai_json "honeypot_response" (.str (get_honeypotJ st stage))
      .ok (jset j1 "ethical_note" (.str ethicalNote), stage + 1)
  else
    .ok (jset ai_json "ethical_note" (.str ethicalNote), stage)

/-- The `analyze` handler of `src/main.py` as a pure function.  `apiKeyOk`
is the result of the `x_api_key != API_KEY` comparison; `message` and
`convId` are `data.get("message")` and `data.get("conversation_id")`;
`oracle` is the outcome of the external `model.generate_content` call
(`.error e` when it raises, with `str(e)` text `e`); the store is threaded
explicitly.  The `HTTPException`s raised for a bad key or missing message are
caught by the handler's own `except Exception` clause (they are `Exception`
subclasses), so they too produce the safe-mode response, with `str(e)` being
`"401: Invalid API Key"` / `"400: Message required"`. -/
def analyze (apiKeyOk : Bool) (message : Option String) (convId : Option String)
    (oracle : Except String String) (store : List (String × Nat)) :
    Json × List (String × Nat) :=
  if !apiKeyOk then (safeModeResp "401: Invalid API Key", store)
  else
    match message with
    | none => (safeModeResp "400: Message required", store)
    | some msg =>
      if msg = "" then (safeModeResp "400: Message required", store)
      else
        let session_id := convId.getD "default"
        let store1 := initStore store session_id
        let stage := (lookupStage store1 session_id).getD 0
        match oracle with
        | .error e => (safeModeResp e, store1)
        | .ok text =>
          match safe_json text with
          | none =>
            let fr := fallbackBranch msg stage
            (fr.1, setStage store1 session_id fr.2)
          | some ai_json =>
            if !jtruthy ai_json then
              let fr := fallbackBranch msg stage
              (fr.1, setStage store1 session_id fr.2)
            else
              match aiBranch ai_json stage with
              | .error e => (safeModeResp e, store1)
              | .ok (r, stage2) => (r, setStage store1 session_id stage2)

/-- Whether `PERSONAS.get(ai_json.get("scam_type", "Bank Fraud"))` is applied
to a hashable value: arrays and objects (Python lists and dicts) raise
`TypeError` there, every other JSON value is hashable. -/
def scamTypeHashable (ai_json : Json) : Bool :=
  match (jget ai_json "scam_type").getD (.str "Bank Fraud") with
  | .arr _ => false
  | .obj _ => false
  | _ => true

/-- Modelled from the spec: the "tokens of the message" that claim C9 speaks
about, i.e. its maximal whitespace-delimited substrings (the source has no
tokenizer; matches are substrings found by the regex scan). -/
def tokensAux : List Char → List Char → List (List Char)
  | [], acc => if acc.isEmpty then [] else [acc.reverse]
  | c :: rest, acc =>
    if isPySpace c then
      (if acc.isEmpty then tokensAux rest [] else acc.reverse :: tokensAux rest [])
    else tokensAux rest (c :: acc)

/-- Modelled from the spec: whitespace-delimited tokens of a message. -/
def tokensOf (message : String) : List String :=
  (tokensAux message.data []).map String.mk

/-- An oracle reply that parses to a scam verdict with the given category
(used to drive consecutive scam-verdict requests for one category). -/
def scamOracleText (cat : String) : String :=
  "\x7b\"is_scam\": true, \"scam_type\": \"" ++ cat ++ "\"\x7d"

/-- One request of the C4 scenario: fixed conversation identifier, fixed
scam category reported by the oracle. -/
def scamRequestStep (cat sid : String) (store : List (String × Nat)) :
    Json × List (String × Nat) :=
  analyze true (some "hello") (some sid) (.ok (scamOracleText cat)) store

/-- Store after `n` consecutive such requests, starting from an empty store
(the conversation identifier not yet referenced). -/
def scamRunStore (cat sid : String) : Nat → List (String × Nat)
  | 0 => []
  | n + 1 => (scamRequestStep cat sid (scamRunStore cat sid n)).2

/-- Response of the `n`-th (0-based) consecutive scam-verdict request. -/
def scamRunResp (cat sid : String) (n : Nat) : Json :=
  (scamRequestStep cat sid (scamRunStore cat sid n)).1

theorem lookupStage_setStage_self (st : List (String × Nat)) (sid : String) (n : Nat) :
    lookupStage (setStage st sid n) sid = some n := by
  induction st with
  | nil => simp [setStage, lookupStage]
  | cons hd tl ih =>
    by_cases h : hd.1 = sid
    · simp [setStage, lookupStage, h]
    · simp [setStage, lookupStage, h, ih]

theorem lookupStage_setStage_ne (st : List (String × Nat)) (sid sid2 : String) (n : Nat)
    (h : sid2 ≠ sid) : lookupStage (setStage st sid n) sid2 = lookupStage st sid2 := by
  induction st with
  | nil =>
    simp only [setStage, lookupStage]
    rw [if_neg (fun hc => h hc.symm)]
  | cons hd tl ih =>
    simp only [setStage]
    by_cases h1 : hd.1 = sid
    · rw [if_pos h1]
      simp only [lookupStage]
      by_cases h2 : hd.1 = sid2
      · exact absurd (h2.symm.trans h1) h
      · rw [if_neg h2, if_neg h2]
    · rw [if_neg h1]
      simp only [lookupStage]
      by_cases h2 : hd.1 = sid2
      · rw [if_pos h2, if_pos h2]
      · rw [if_neg h2, if_neg h2]
        exact ih

theorem lookupStage_initStore_some (store : List (String × Nat)) (sid : String) :
    lookupStage (initStore store sid) sid = some (effStage store sid) := by
  cases h : lookupStage store sid with
  | none => simp [initStore, h, effStage, lookupStage_setStage_self]
  | some k => simp [initStore, h, effStage]

theorem lookupStage_initStore_getD (store : List (String × Nat)) (sid : String) :
    (lookupStage (initStore store sid) sid).getD 0 = effStage store sid := by
  rw [lookupStage_initStore_some]
  rfl

theorem lookupStage_initStore_ne (store : List (String × Nat)) (sid sid2 : String)
    (h : sid2 ≠ sid) : lookupStage (initStore store sid) sid2 = lookupStage store sid2 := by
  cases hl : lookupStage store sid with
  | none => simp [initStore, hl, lookupStage_setStage_ne _ _ _ _ h]
  | some k => simp [initStore, hl]

theorem lookupField_insertField_self (fs : List (String × Json)) (k : String) (v : Json) :
    lookupField (insertField fs k v) k = some v := by
  induction fs with
  | nil => simp [insertField, lookupField]
  | cons hd tl ih =>
    by_cases h : hd.1 = k
    · simp [insertField, lookupField, h]
    · simp [insertField, lookupField, h, ih]

theorem lookupField_insertField_ne (fs : List (String × Json)) (k k2 : String) (v : Json)
    (h : k2 ≠ k) : lookupField (insertField fs k v) k2 = lookupField fs k2 := by
  induction fs with
  | nil =>
    simp only [insertField, lookupField]
    rw [if_neg (fun hc => h hc.symm)]
  | cons hd tl ih =>
    simp only [insertField]
    by_cases h1 : hd.1 = k
    · rw [if_pos h1]
      simp only [lookupField]
      by_cases h2 : hd.1 = k2
      · exact absurd (h2.symm.trans h1) h
      · rw [if_neg h2, if_neg h2]
    · rw [if_neg h1]
      simp only [lookupField]
      by_cases h2 : hd.1 = k2
      · rw [if_pos h2, if_pos h2]
      · rw [if_neg h2, if_neg h2]
        exact ih

theorem jget_jset_same (fs : List (String × Json)) (k : String) (v : Json) :
    jget (jset (.obj fs) k v) k = some v := by
  simp [jset, jget, lookupField_insertField_self]

theorem jget_jset_other (fs : List (String × Json)) (k k2 : String) (v : Json)
    (h : k2 ≠ k) : jget (jset (.obj fs) k v) k2 = jget (.obj fs) k2 := by
  simp [jset, jget, lookupField_insertField_ne _ _ _ _ h]

theorem get_honeypot_unknown (st : String) (stage : Nat)
    (h : lookupPersona PERSONAS st = none) : get_honeypot st stage = defaultReply := by
  simp [get_honeypot, h]

theorem get_honeypot_known (cat : String) (script : List String) (stage : Nat)
    (h : lookupPersona PERSONAS cat = some script) (hne : script.isEmpty = false) :
    get_honeypot cat stage = script.getD (stage % script.length) "" := by
  simp [get_honeypot, h, hne]

theorem get_honeypot_mem (st : String) (stage : Nat) :
    get_honeypot st stage = defaultReply ∨
      ∃ script, lookupPersona PERSONAS st = some script ∧ get_honeypot st stage ∈ script := by
  cases h : lookupPersona PERSONAS st with
  | none => exact Or.inl (get_honeypot_unknown st stage h)
  | some script =>
    cases hne : script.isEmpty with
    | true => left; simp [get_honeypot, h, hne]
    | false =>
      right
      refine ⟨script, rfl, ?_⟩
      rw [get_honeypot_known st script stage h hne]
      have hlen : 0 < script.length := by
        cases script with
        | nil => simp at hne
        | cons a l => simp
      have hidx : stage % script.length < script.length := Nat.mod_lt _ hlen
      rw [List.getD_eq_getElem _ _ hidx]
      exact List.getElem_mem hidx

/-- C2: on the rule-based fallback path, `is_scam` is `true` iff a `upi_id`
or a `phishing_link` was extracted from the message; the category is
`Phishing` when a `phishing_link` was extracted, else `Bank Fraud` when a
`upi_id` was extracted, else `Not Scam`; and the confidence is exactly `0.7`
when `is_scam` is `true` and exactly `0.2` otherwise. -/
theorem C2_rule_based_policy (msg : String) (stage : Nat) :
    (jget (fallbackBranch msg stage).1 "is_scam" = some (.bool true) ↔
      ((regex_extract msg).upi_id ≠ [] ∨ (regex_extract msg).phishing_link ≠ [])) ∧
    (jget (fallbackBranch msg stage).1 "is_scam" = some (.bool false) ↔
      ¬((regex_extract msg).upi_id ≠ [] ∨ (regex_extract msg).phishing_link ≠ [])) ∧
    jget (fallbackBranch msg stage).1 "scam_type" =
      some (.str (if (regex_extract msg).phishing_link ≠ [] then "Phishing"
        else if (regex_extract msg).upi_id ≠ [] then "Bank Fraud" else "Not Scam")) ∧
    jget (fallbackBranch msg stage).1 "confidence" =
      some (.num (if (regex_extract msg).upi_id ≠ [] ∨ (regex_extract msg).phishing_link ≠ []
        then (0.7 : ℚ) else (0.2 : ℚ))) := by
  by_cases h1 : (regex_extract msg).upi_id = [] <;>
    by_cases h2 : (regex_extract msg).phishing_link = [] <;>
      simp [fallbackBranch, jget, lookupField, h1, h2]

/-- C3: when the oracle call raises any internal error (and likewise for the
other guarded raises), the caller still receives the fixed well-formed
System-Safe-Mode result: `is_scam = true`, `scam_type = "System Safe Mode"`,
`confidence = 0.4`, `honeypot_response = "Please repeat the message."`, empty
extracted entities, and an annotation embedding the error text; no raw
failure is surfaced. -/
theorem C3_safe_mode_on_internal_error (m : String) (hm : m ≠ "") (cid : Option String)
    (e : String) (store : List (String × Nat)) :
    (analyze true (some m) cid (.error e) store).1 = safeModeResp e ∧
    jget (safeModeResp e) "is_scam" = some (.bool true) ∧
    jget (safeModeResp e) "scam_type" = some (.str "System Safe Mode") ∧
    jget (safeModeResp e) "confidence" = some (.num (0.4 : ℚ)) ∧
    jget (safeModeResp e) "honeypot_response" = some (.str "Please repeat the message.") ∧
    jget (safeModeResp e) "extracted_entities" = some (.obj []) ∧
    jget (safeModeResp e) "ethical_note" = some (.str ("Error handled safely: " ++ e)) := by
  refine ⟨?_, ?_, ?_, ?_, ?_, ?_, ?_⟩ <;>
    simp [analyze, hm, safeModeResp, jget, lookupField]

theorem C3_witness :
    (("hi" : String) ≠ "") ∧
    (analyze true (some "hi") (some "c") (.error "boom") []).1 = safeModeResp "boom" := by
  have h := C3_safe_mode_on_internal_error "hi" (by decide) (some "c") "boom" []
  exact ⟨by decide, h.1⟩

/-- C1 is false as stated: when the oracle call itself raises (here a
timeout), the verdict is NOT produced by the rule-based classifier — the
outer guard answers with the System-Safe-Mode result (`scam_type = "System
Safe Mode"`, `confidence = 0.4`), while the rule-based classifier on the same
message would return `Bank Fraud` with confidence `0.7`. -/
theorem C1_counterexample :
    jget (analyze true (some "Send money to test@upi now") (some "c1")
        (.error "504 Deadline Exceeded") []).1 "scam_type" =
      some (.str "System Safe Mode") ∧
    jget (analyze true (some "Send money to test@upi now") (some "c1")
        (.error "504 Deadline Exceeded") []).1 "confidence" = some (.num (0.4 : ℚ)) ∧
    jget (fallbackBranch "Send money to test@upi now" 0).1 "scam_type" =
      some (.str "Bank Fraud") ∧
    jget (fallbackBranch "Send money to test@upi now" 0).1 "confidence" =
      some (.num (0.7 : ℚ)) := by
  exact ⟨rfl, rfl, rfl, rfl⟩

/-- C1 amended: only a reply that fails to parse (or parses falsy) falls back
to the rule-based classifier; an oracle call that raises is answered by the
outer guard's System-Safe-Mode response instead.  In both cases the
classification step returns a well-formed annotated result to the caller
rather than propagating the failure. -/
theorem C1_amended_oracle_failure (m : String) (hm : m ≠ "") (cid : Option String)
    (store : List (String × Nat)) :
    (∀ t, safe_json t = none →
      (analyze true (some m) cid (.ok t) store).1 =
        (fallbackBranch m (effStage store (cid.getD "default"))).1) ∧
    (∀ e, (analyze true (some m) cid (.error e) store).1 = safeModeResp e) ∧
    (∀ t, safe_json t = none →
      jget (analyze true (some m) cid (.ok t) store).1 "ethical_note" =
        some (.str ethicalNote)) ∧
    (∀ e, jget (safeModeResp e) "ethical_note" =
      some (.str ("Error handled safely: " ++ e))) := by
  refine ⟨?_, ?_, ?_, ?_⟩
  · intro t ht
    simp only [analyze, hm, Bool.not_true, Bool.false_eq_true, if_false, if_neg hm, ht]
    rw [lookupStage_initStore_getD]
  · intro e
    simp [analyze, hm]
  · intro t ht
    simp only [analyze, hm, Bool.not_true, Bool.false_eq_true, if_false, if_neg hm, ht]
    simp [fallbackBranch, jget, lookupField]
  · intro e
    simp [safeModeResp, jget, lookupField]

theorem C1_witness :
    (("pay me" : String) ≠ "") ∧
    (analyze true (some "pay me") (some "c") (.error "timeout") []).1 =
      safeModeResp "timeout" := by
  have h := C1_amended_oracle_failure "pay me" (by decide) (some "c") []
  exact ⟨by decide, h.2.1 "timeout"⟩

theorem analyze_ok_parsed (m : String) (hm : m ≠ "") (cid : Option String)
    (store : List (String × Nat)) (t : String) (j : Json)
    (ht : safe_json t = some j) (htr : jtruthy j = true) :
    analyze true (some m) cid (.ok t) store =
      (match aiBranch j (effStage store (cid.getD "default")) with
       | .error e => (safeModeResp e, initStore store (cid.getD "default"))
       | .ok (r, stage2) =>
         (r, setStage (initStore store (cid.getD "default")) (cid.getD "default") stage2)) := by
  simp only [analyze, if_neg hm, ht, htr, Bool.not_true, Bool.false_eq_true, if_false]
  rw [lookupStage_initStore_getD]

theorem analyze_ok_fallback (m : String) (hm : m ≠ "") (cid : Option String)
    (store : List (String × Nat)) (t : String)
    (ht : safe_json t = none ∨ ∃ j, safe_json t = some j ∧ jtruthy j = false) :
    analyze true (some m) cid (.ok t) store =
      ((fallbackBranch m (effStage store (cid.getD "default"))).1,
       setStage (initStore store (cid.getD "default")) (cid.getD "default")
         (fallbackBranch m (effStage store (cid.getD "default"))).2) := by
  rcases ht with ht | ⟨j, ht, htr⟩
  · simp only [analyze, if_neg hm, ht, Bool.not_true, Bool.false_eq_true, if_false]
    rw [lookupStage_initStore_getD]
  · simp only [analyze, if_neg hm, ht, htr, Bool.not_false, if_true, Bool.false_eq_true,
      Bool.not_true, if_false]
    rw [lookupStage_initStore_getD]

theorem aiBranch_nonscam_eval (j : Json) (stage : Nat)
    (h : jtruthyOpt (jget j "is_scam") = false) :
    aiBranch j stage = .ok (jset j "ethical_note" (.str ethicalNote), stage) := by
  simp [aiBranch, h]

theorem aiBranch_scam_eval (j : Json) (stage : Nat)
    (hscam : jtruthyOpt (jget j "is_scam") = true)
    (hhash : scamTypeHashable j = true) :
    aiBranch j stage =
      .ok (jset (jset j "honeypot_response"
        (.str (get_honeypotJ ((jget j "scam_type").getD (.str "Bank Fraud")) stage)))
        "ethical_note" (.str ethicalNote), stage + 1) := by
  unfold aiBranch
  rw [hscam]
  simp only [if_true]
  cases hv : (jget j "scam_type").getD (.str "Bank Fraud") with
  | arr xs => rw [scamTypeHashable, hv] at hhash; simp at hhash
  | obj fs => rw [scamTypeHashable, hv] at hhash; simp at hhash
  | null => rfl
  | bool b => rfl
  | num q => rfl
  | str s => rfl

theorem aiBranch_unhashable_eval (j : Json) (stage : Nat)
    (hscam : jtruthyOpt (jget j "is_scam") = true)
    (hhash : scamTypeHashable j = false) :
    ∃ e, aiBranch j stage = .error e := by
  unfold aiBranch
  rw [hscam]
  simp only [if_true]
  cases hv : (jget j "scam_type").getD (.str "Bank Fraud") with
  | arr xs => exact ⟨_, rfl⟩
  | obj fs => exact ⟨_, rfl⟩
  | null => rw [scamTypeHashable, hv] at hhash; simp at hhash
  | bool b => rw [scamTypeHashable, hv] at hhash; simp at hhash
  | num q => rw [scamTypeHashable, hv] at hhash; simp at hhash
  | str s => rw [scamTypeHashable, hv] at hhash; simp at hhash

/-- C7 is false as stated: an oracle reply that parses to a non-empty object
missing every required verdict field is NOT discarded — the pipeline returns
that object itself (plus the annotation), with no `is_scam`, `scam_type` or
`confidence` fields at all, instead of the rule-based verdict (which would
always carry a `confidence` of `0.7` or `0.2`). -/
theorem C7_counterexample :
    (analyze true (some "hi") (some "c") (.ok "\x7b\"hello\": \"world\"\x7d") []).1 =
      .obj [("hello", .str "world"), ("ethical_note", .str ethicalNote)] ∧
    jget (analyze true (some "hi") (some "c")
      (.ok "\x7b\"hello\": \"world\"\x7d") []).1 "is_scam" = none ∧
    jget (analyze true (some "hi") (some "c")
      (.ok "\x7b\"hello\": \"world\"\x7d") []).1 "confidence" = none ∧
    jget (fallbackBranch "hi" 0).1 "confidence" = some (.num (0.2 : ℚ)) := by
  exact ⟨rfl, rfl, rfl, rfl⟩

/-- C7 amended: the orchestrator discards the AI result and uses the
rule-based classifier exactly when the reply fails to parse or parses to a
falsy (empty) object; any truthy parsed object is used as the response even
when the required verdict fields are missing (a missing or falsy scam flag
merely skips the honeypot insertion). -/
theorem C7_amended_fallback_iff_falsy (m : String) (hm : m ≠ "") (cid : Option String)
    (store : List (String × Nat)) :
    (∀ t, (safe_json t = none ∨ ∃ j, safe_json t = some j ∧ jtruthy j = false) →
      (analyze true (some m) cid (.ok t) store).1 =
        (fallbackBranch m (effStage store (cid.getD "default"))).1) ∧
    (∀ t j, safe_json t = some j → jtruthy j = true →
      jtruthyOpt (jget j "is_scam") = false →
      (analyze true (some m) cid (.ok t) store).1 =
        jset j "ethical_note" (.str ethicalNote)) := by
  constructor
  · intro t ht
    rw [analyze_ok_fallback m hm cid store t ht]
  · intro t j ht htr hscam
    rw [analyze_ok_parsed m hm cid store t j ht htr,
      aiBranch_nonscam_eval j _ hscam]

theorem C7_witness :
    (("hi" : String) ≠ "") ∧
    safe_json "\x7b\"a\": \"b\"\x7d" = some (.obj [("a", .str "b")]) ∧
    jtruthy (.obj [("a", .str "b")]) = true ∧
    jtruthyOpt (jget (.obj [("a", .str "b")]) "is_scam") = false ∧
    (analyze true (some "hi") (some "c") (.ok "\x7b\"a\": \"b\"\x7d") []).1 =
      jset (.obj [("a", .str "b")]) "ethical_note" (.str ethicalNote) := by
  have h := C7_amended_fallback_iff_falsy "hi" (by decide) (some "c") []
  exact ⟨by decide, rfl, rfl, rfl, h.2 "\x7b\"a\": \"b\"\x7d" (.obj [("a", .str "b")]) rfl rfl rfl⟩

/-- C8 is false as stated: a scam verdict whose reported category lies
outside the enumeration (here `"Crypto Scam"`) is answered with the fixed
default reply `"Can you explain this again?"`, which is not a line of the
Bank Fraud persona script; the `"Bank Fraud"` default applies only when the
`scam_type` key is absent altogether. -/
theorem C8_counterexample :
    jget (analyze true (some "hi") (some "c")
        (.ok "\x7b\"is_scam\": true, \"scam_type\": \"Crypto Scam\"\x7d") []).1
        "honeypot_response" = some (.str defaultReply) ∧
    lookupPersona PERSONAS "Crypto Scam" = none ∧
    lookupPersona PERSONAS "Bank Fraud" =
      some ["Why is my account blocked? I use it daily.",
        "Which UPI ID should I send the money to?",
        "The app is asking for details again. Can you help?"] ∧
    ¬(defaultReply ∈ ["Why is my account blocked? I use it daily.",
        "Which UPI ID should I send the money to?",
        "The app is asking for details again. Can you help?"]) := by
  exact ⟨rfl, rfl, rfl, by decide⟩

/-- C8 amended: a scam-verdict request whose AI-reported category string lies
outside the enumeration is answered — without failing — with the fixed
default reply (`"Can you explain this again?"`); the Bank Fraud script is the
default only for a missing `scam_type` key. -/
theorem C8_amended_unknown_category (m : String) (hm : m ≠ "") (cid : Option String)
    (store : List (String × Nat)) (t : String) (j : Json) (c : String)
    (ht : safe_json t = some j) (htr : jtruthy j = true)
    (hscam : jtruthyOpt (jget j "is_scam") = true)
    (hst : jget j "scam_type" = some (.str c))
    (hunk : lookupPersona PERSONAS c = none) :
    jget (analyze true (some m) cid (.ok t) store).1 "honeypot_response" =
      some (.str defaultReply) ∧
    jget (analyze true (some m) cid (.ok t) store).1 "scam_type" = some (.str c) ∧
    jget (analyze true (some m) cid (.ok t) store).1 "ethical_note" =
      some (.str ethicalNote) := by
  obtain ⟨fs, rfl⟩ : ∃ fs, j = .obj fs := by
    cases j <;> simp [jget] at hst
    exact ⟨_, rfl⟩
  have hhash : scamTypeHashable (.obj fs) = true := by
    rw [scamTypeHashable, hst]
    rfl
  rw [analyze_ok_parsed m hm cid store t _ ht htr,
    aiBranch_scam_eval _ _ hscam hhash, hst]
  have hline : get_honeypotJ ((some (Json.str c)).getD (.str "Bank Fraud"))
      (effStage store (cid.getD "default")) = defaultReply := by
    simp [get_honeypotJ, get_honeypot_unknown c _ hunk]
  rw [hline]
  have hset : jset (.obj fs) "honeypot_response" (.str defaultReply) =
      .obj (insertField fs "honeypot_response" (.str defaultReply)) := rfl
  refine ⟨?_, ?_, ?_⟩
  · rw [hset, jget_jset_other (insertField fs "honeypot_response" (.str defaultReply))
      "ethical_note" "honeypot_response" _ (by decide)]
    simp [jget, lookupField_insertField_self]
  · rw [hset, jget_jset_other (insertField fs "honeypot_response" (.str defaultReply))
      "ethical_note" "scam_type" _ (by decide)]
    simp only [jget]
    rw [lookupField_insertField_ne _ _ _ _ (by decide)]
    simpa [jget] using hst
  · rw [hset]
    exact jget_jset_same _ _ _

theorem C8_witness :
    safe_json "\x7b\"is_scam\": true, \"scam_type\": \"Crypto Scam\"\x7d" =
      some (.obj [("is_scam", .bool true), ("scam_type", .str "Crypto Scam")]) ∧
    lookupPersona PERSONAS "Crypto Scam" = none ∧
    jget (analyze true (some "hi") (some "c")
        (.ok "\x7b\"is_scam\": true, \"scam_type\": \"Crypto Scam\"\x7d") []).1
        "honeypot_response" = some (.str defaultReply) := by
  have h := C8_amended_unknown_category "hi" (by decide) (some "c") []
    "\x7b\"is_scam\": true, \"scam_type\": \"Crypto Scam\"\x7d"
    (.obj [("is_scam", .bool true), ("scam_type", .str "Crypto Scam")])
    "Crypto Scam" rfl rfl rfl rfl rfl
  exact ⟨rfl, rfl, h.1⟩

theorem get_honeypotJ_mem (v : Json) (stage : Nat) :
    get_honeypotJ v stage = defaultReply ∨
      ∃ cat script, lookupPersona PERSONAS cat = some script ∧
        get_honeypotJ v stage ∈ script := by
  cases v with
  | str s =>
    rcases get_honeypot_mem s stage with h | ⟨script, h, hmem⟩
    · exact Or.inl h
    · exact Or.inr ⟨s, script, h, hmem⟩
  | null => exact Or.inl rfl
  | bool b => exact Or.inl rfl
  | num q => exact Or.inl rfl
  | arr xs => exact Or.inl rfl
  | obj fs => exact Or.inl rfl

theorem get_honeypot_mem_cat (st : String) (stage : Nat) :
    get_honeypot st stage = defaultReply ∨
      ∃ cat script, lookupPersona PERSONAS cat = some script ∧
        get_honeypot st stage ∈ script := by
  rcases get_honeypot_mem st stage with h | ⟨script, h, hmem⟩
  · exact Or.inl h
  · exact Or.inr ⟨st, script, h, hmem⟩

/-- C6 is false as stated: on the AI path with a non-scam verdict, the
oracle-supplied `honeypot_response` value is passed through unmodified, so
the field can be a string even though `is_scam` is `false`. -/
theorem C6_counterexample :
    jget (analyze true (some "hi") (some "c")
        (.ok "\x7b\"is_scam\": false, \"honeypot_response\": \"HELLO\"\x7d") []).1
        "is_scam" = some (.bool false) ∧
    jget (analyze true (some "hi") (some "c")
        (.ok "\x7b\"is_scam\": false, \"honeypot_response\": \"HELLO\"\x7d") []).1
        "honeypot_response" = some (.str "HELLO") ∧
    some (Json.str "HELLO") ≠ some Json.null := by
  refine ⟨rfl, rfl, by simp⟩

/-- C6 amended: on the rule-based fallback path the `honeypot_response` field
is null exactly when `is_scam` is false, and is a persona-script line or the
fixed default reply when `is_scam` is true; on the AI path this holds only
for scam verdicts (the line is then drawn from the scripts or the default
reply), while a non-scam AI verdict passes the oracle's own
`honeypot_response` value through unmodified. -/
theorem C6_amended_honeypot_field (m : String) (hm : m ≠ "") :
    (∀ stage,
      (jget (fallbackBranch m stage).1 "honeypot_response" = some .null ↔
        jget (fallbackBranch m stage).1 "is_scam" = some (.bool false)) ∧
      (jget (fallbackBranch m stage).1 "is_scam" = some (.bool true) →
        ∃ line, jget (fallbackBranch m stage).1 "honeypot_response" = some (.str line) ∧
          (line = defaultReply ∨
            ∃ cat script, lookupPersona PERSONAS cat = some script ∧ line ∈ script))) ∧
    (∀ cid store t j, safe_json t = some j → jtruthy j = true →
      jtruthyOpt (jget j "is_scam") = true → scamTypeHashable j = true →
      ∃ line, jget (analyze true (some m) cid (.ok t) store).1 "honeypot_response" =
          some (.str line) ∧
        (line = defaultReply ∨
          ∃ cat script, lookupPersona PERSONAS cat = some script ∧ line ∈ script)) := by
  constructor
  · intro stage
    by_cases h1 : (regex_extract m).upi_id.isEmpty
    · by_cases h2 : (regex_extract m).phishing_link.isEmpty
      · constructor
        · simp [fallbackBranch, jget, lookupField, h1, h2]
        · intro hscam
          simp [fallbackBranch, jget, lookupField, h1, h2] at hscam
      · exact ⟨by simp [fallbackBranch, jget, lookupField, h1, h2],
          fun _ => ⟨get_honeypot "Phishing" stage,
            by simp [fallbackBranch, jget, lookupField, h1, h2],
            get_honeypot_mem_cat _ _⟩⟩
    · by_cases h2 : (regex_extract m).phishing_link.isEmpty
      · exact ⟨by simp [fallbackBranch, jget, lookupField, h1, h2],
          fun _ => ⟨get_honeypot "Bank Fraud" stage,
            by simp [fallbackBranch, jget, lookupField, h1, h2],
            get_honeypot_mem_cat _ _⟩⟩
      · exact ⟨by simp [fallbackBranch, jget, lookupField, h1, h2],
          fun _ => ⟨get_honeypot "Phishing" stage,
            by simp [fallbackBranch, jget, lookupField, h1, h2],
            get_honeypot_mem_cat _ _⟩⟩
  · intro cid store t j ht htr hscam hhash
    obtain ⟨fs, rfl⟩ : ∃ fs, j = .obj fs := by
      cases j <;> simp [jget, jtruthyOpt] at hscam
      exact ⟨_, rfl⟩
    rw [analyze_ok_parsed m hm cid store t _ ht htr, aiBranch_scam_eval _ _ hscam hhash]
    have hset : jset (.obj fs) "honeypot_response"
        (.str (get_honeypotJ ((jget (.obj fs) "scam_type").getD (.str "Bank Fraud"))
          (effStage store (cid.getD "default")))) =
        .obj (insertField fs "honeypot_response"
          (.str (get_honeypotJ ((jget (.obj fs) "scam_type").getD (.str "Bank Fraud"))
            (effStage store (cid.getD "default"))))) := rfl
    refine ⟨get_honeypotJ ((jget (.obj fs) "scam_type").getD (.str "Bank Fraud"))
      (effStage store (cid.getD "default")), ?_, get_honeypotJ_mem _ _⟩
    rw [hset, jget_jset_other _ "ethical_note" "honeypot_response" _ (by decide)]
    simp [jget, lookupField_insertField_self]

theorem C6_witness :
    (("buy now at https://scam.example" : String) ≠ "") ∧
    jget (fallbackBranch "buy now at https://scam.example" 0).1 "is_scam" =
      some (.bool true) ∧
    ∃ line, jget (fallbackBranch "buy now at https://scam.example" 0).1
        "honeypot_response" = some (.str line) ∧
      (line = defaultReply ∨
        ∃ cat script, lookupPersona PERSONAS cat = some script ∧ line ∈ script) := by
  have h := (C6_amended_honeypot_field "buy now at https://scam.example" (by decide)).1 0
  exact ⟨by decide, rfl, h.2 rfl⟩

theorem effStage_initStore (store : List (String × Nat)) (sid : String) :
    effStage (initStore store sid) sid = effStage store sid := by
  rw [effStage, lookupStage_initStore_some]
  rfl

theorem effStage_setStage_self (store : List (String × Nat)) (sid : String) (n : Nat) :
    effStage (setStage store sid n) sid = n := by
  rw [effStage, lookupStage_setStage_self]
  rfl

theorem fallbackBranch_is_scam_stage (m : String) (st : Nat) :
    jget (fallbackBranch m st).1 "is_scam" =
      some (.bool (!(regex_extract m).upi_id.isEmpty ||
        !(regex_extract m).phishing_link.isEmpty)) ∧
    (fallbackBranch m st).2 =
      st + (if (!(regex_extract m).upi_id.isEmpty ||
        !(regex_extract m).phishing_link.isEmpty) = true then 1 else 0) := by
  constructor
  · simp [fallbackBranch, jget, lookupField]
  · rfl

theorem jget_jset_ethical_is_scam (j : Json) (w : Json) :
    jget (jset j "ethical_note" w) "is_scam" = jget j "is_scam" := by
  cases j with
  | obj fs => exact jget_jset_other fs "ethical_note" "is_scam" w (by decide)
  | null => rfl
  | bool b => rfl
  | num q => rfl
  | str s => rfl
  | arr xs => rfl

theorem jget_aiResp_is_scam (j : Json) (v w : Json) :
    jget (jset (jset j "honeypot_response" v) "ethical_note" w) "is_scam" =
      jget j "is_scam" := by
  cases j with
  | obj fs =>
    rw [show jset (.obj fs) "honeypot_response" v =
      .obj (insertField fs "honeypot_response" v) from rfl]
    rw [jget_jset_other _ "ethical_note" "is_scam" _ (by decide)]
    simp only [jget]
    rw [lookupField_insertField_ne _ _ _ _ (by decide)]
  | null => rfl
  | bool b => rfl
  | num q => rfl
  | str s => rfl
  | arr xs => rfl

/-- C5 is false as stated: a request answered by the outer guard (here an
oracle raise) carries the final verdict `is_scam = true`, yet the stage
counter of its conversation is not incremented — it is created at `0` and
left there. -/
theorem C5_counterexample :
    jget (analyze true (some "hi") (some "c") (.error "boom") []).1 "is_scam" =
      some (.bool true) ∧
    (analyze true (some "hi") (some "c") (.error "boom") []).2 = [("c", 0)] ∧
    effStage [] "c" = 0 ∧
    effStage [("c", 0)] "c" = 0 := by
  exact ⟨rfl, rfl, rfl, rfl⟩

/-- C5 amended: the stage counter is created lazily at `0` on first reference
once the request passes the message check; it never decreases and moves by at
most one per request; requests answered by the outer guard (oracle raise or
unhashable category) leave it unchanged; on the classifier paths it is
incremented by exactly 1 iff the returned `is_scam` is truthy — so non-scam
requests leave it unchanged — and requests never touch any other
conversation's counter. -/
theorem C5_amended_stage_discipline (k : Bool) (m : Option String) (cid : Option String)
    (o : Except String String) (store : List (String × Nat)) :
    (∀ sid2, sid2 ≠ cid.getD "default" →
      lookupStage (analyze k m cid o store).2 sid2 = lookupStage store sid2) ∧
    (effStage (analyze k m cid o store).2 (cid.getD "default") =
        effStage store (cid.getD "default") ∨
      effStage (analyze k m cid o store).2 (cid.getD "default") =
        effStage store (cid.getD "default") + 1) ∧
    (∀ e, o = .error e →
      effStage (analyze k m cid o store).2 (cid.getD "default") =
        effStage store (cid.getD "default")) ∧
    (∀ ms t, k = true → m = some ms → ms ≠ "" → o = .ok t →
      (∀ j, safe_json t = some j → jtruthy j = true →
        jtruthyOpt (jget j "is_scam") = true → scamTypeHashable j = true) →
      effStage (analyze k m cid o store).2 (cid.getD "default") =
        effStage store (cid.getD "default") +
          (if jtruthyOpt (jget (analyze k m cid o store).1 "is_scam") = true
            then 1 else 0)) ∧
    (k = true → (∃ ms, m = some ms ∧ ms ≠ "") →
      lookupStage (analyze k m cid o store).2 (cid.getD "default") =
        some (effStage (analyze k m cid o store).2 (cid.getD "default"))) := by
  cases k with
  | false =>
    have hout : analyze false m cid o store = (safeModeResp "401: Invalid API Key", store) := by
      simp [analyze]
    rw [hout]
    refine ⟨fun _ _ => rfl, Or.inl rfl, fun _ _ => rfl, ?_, ?_⟩
    · intro ms t hk
      exact absurd hk (by simp)
    · intro hk
      exact absurd hk (by simp)
  | true =>
    cases m with
    | none =>
      have hout : analyze true none cid o store = (safeModeResp "400: Message required", store) := rfl
      rw [hout]
      refine ⟨fun _ _ => rfl, Or.inl rfl, fun _ _ => rfl, ?_, ?_⟩
      · intro ms t _ hm
        exact absurd hm (by simp)
      · rintro _ ⟨ms, hm, _⟩
        exact absurd hm (by simp)
    | some ms =>
      by_cases hms : ms = ""
      · subst hms
        have hout : analyze true (some "") cid o store =
            (safeModeResp "400: Message required", store) := rfl
        rw [hout]
        refine ⟨fun _ _ => rfl, Or.inl rfl, fun _ _ => rfl, ?_, ?_⟩
        · intro ms' t _ hm hne _ _
          injection hm with h
          exact absurd h.symm hne
        · rintro _ ⟨ms', hm, hne⟩
          injection hm with h
          exact absurd h.symm hne
      · cases o with
        | error e =>
          have hout : analyze true (some ms) cid (.error e) store =
              (safeModeResp e, initStore store (cid.getD "default")) := by
            simp [analyze, hms]
          rw [hout]
          refine ⟨?_, Or.inl (effStage_initStore _ _), fun _ _ => effStage_initStore _ _,
            ?_, ?_⟩
          · intro sid2 hne
            exact lookupStage_initStore_ne _ _ _ hne
          · intro ms' t _ _ _ ho
            exact absurd ho (by simp)
          · intro _ _
            rw [effStage_initStore, lookupStage_initStore_some]
        | ok t =>
          cases hsj : safe_json t with
          | none =>
            have hout := analyze_ok_fallback ms hms cid store t (Or.inl hsj)
            have hb := fallbackBranch_is_scam_stage ms (effStage store (cid.getD "default"))
            rw [hout]
            refine ⟨?_, ?_, ?_, ?_, ?_⟩
            · intro sid2 hne
              rw [lookupStage_setStage_ne _ _ _ _ hne, lookupStage_initStore_ne _ _ _ hne]
            · rw [effStage_setStage_self, hb.2]
              by_cases hbb : (!(regex_extract ms).upi_id.isEmpty ||
                  !(regex_extract ms).phishing_link.isEmpty) = true
              · right
                rw [if_pos hbb]
              · left
                rw [if_neg hbb]
                exact Nat.add_zero _
            · intro e he
              exact absurd he (by simp)
            · intro ms' t' _ hm hne ho _
              injection hm with h1
              injection ho with h2
              subst h1; subst h2
              rw [effStage_setStage_self, hb.2, hb.1]
              by_cases hbb : (!(regex_extract ms).upi_id.isEmpty ||
                  !(regex_extract ms).phishing_link.isEmpty) = true
              · rw [if_pos hbb, if_pos (by simpa [jtruthyOpt, jtruthy] using hbb)]
              · rw [if_neg hbb, if_neg (by simpa [jtruthyOpt, jtruthy] using hbb)]
            · intro _ _
              rw [effStage_setStage_self, lookupStage_setStage_self]
          | some j =>
            by_cases htr : jtruthy j = true
            · by_cases hscam : jtruthyOpt (jget j "is_scam") = true
              · by_cases hhash : scamTypeHashable j = true
                · have hout : analyze true (some ms) cid (.ok t) store =
                      (jset (jset j "honeypot_response"
                        (.str (get_honeypotJ
                          ((jget j "scam_type").getD (.str "Bank Fraud"))
                          (effStage store (cid.getD "default")))))
                        "ethical_note" (.str ethicalNote),
                       setStage (initStore store (cid.getD "default")) (cid.getD "default")
                         (effStage store (cid.getD "default") + 1)) := by
                    rw [analyze_ok_parsed ms hms cid store t j hsj htr,
                      aiBranch_scam_eval j _ hscam hhash]
                  rw [hout]
                  refine ⟨?_, Or.inr (effStage_setStage_self _ _ _), ?_, ?_, ?_⟩
                  · intro sid2 hne
                    rw [lookupStage_setStage_ne _ _ _ _ hne,
                      lookupStage_initStore_ne _ _ _ hne]
                  · intro e he
                    exact absurd he (by simp)
                  · intro ms' t' _ _ _ _ _
                    rw [effStage_setStage_self, jget_aiResp_is_scam, if_pos hscam]
                  · intro _ _
                    rw [effStage_setStage_self, lookupStage_setStage_self]
                · have hscf : scamTypeHashable j = false := by simpa using hhash
                  obtain ⟨e, he⟩ := aiBranch_unhashable_eval j _ hscam hscf
                  have hout : analyze true (some ms) cid (.ok t) store =
                      (safeModeResp e, initStore store (cid.getD "default")) := by
                    rw [analyze_ok_parsed ms hms cid store t j hsj htr, he]
                  rw [hout]
                  refine ⟨?_, Or.inl (effStage_initStore _ _),
                    fun _ ho => absurd ho (by simp), ?_, ?_⟩
                  · intro sid2 hne
                    exact lookupStage_initStore_ne _ _ _ hne
                  · intro ms' t' _ hm hne ho hall
                    injection ho with h2
                    subst h2
                    exact absurd (hall j hsj htr hscam) (by simp [hscf])
                  · intro _ _
                    rw [effStage_initStore, lookupStage_initStore_some]
              · have hscf : jtruthyOpt (jget j "is_scam") = false := by simpa using hscam
                have hout : analyze true (some ms) cid (.ok t) store =
                    (jset j "ethical_note" (.str ethicalNote),
                     setStage (initStore store (cid.getD "default")) (cid.getD "default")
                       (effStage store (cid.getD "default"))) := by
                  rw [analyze_ok_parsed ms hms cid store t j hsj htr,
                    aiBranch_nonscam_eval j _ hscf]
                rw [hout]
                refine ⟨?_, Or.inl (effStage_setStage_self _ _ _), ?_, ?_, ?_⟩
                · intro sid2 hne
                  rw [lookupStage_setStage_ne _ _ _ _ hne,
                    lookupStage_initStore_ne _ _ _ hne]
                · intro e he
                  exact absurd he (by simp)
                · intro ms' t' _ _ _ _ _
                  rw [effStage_setStage_self, jget_jset_ethical_is_scam, if_neg (by simp [hscf])]
                  exact (Nat.add_zero _).symm
                · intro _ _
                  rw [effStage_setStage_self, lookupStage_setStage_self]
            · have hft : jtruthy j = false := by simpa using htr
              have hout := analyze_ok_fallback ms hms cid store t (Or.inr ⟨j, hsj, hft⟩)
              have hb := fallbackBranch_is_scam_stage ms (effStage store (cid.getD "default"))
              rw [hout]
              refine ⟨?_, ?_, ?_, ?_, ?_⟩
              · intro sid2 hne
                rw [lookupStage_setStage_ne _ _ _ _ hne, lookupStage_initStore_ne _ _ _ hne]
              · rw [effStage_setStage_self, hb.2]
                by_cases hbb : (!(regex_extract ms).upi_id.isEmpty ||
                    !(regex_extract ms).phishing_link.isEmpty) = true
                · right
                  rw [if_pos hbb]
                · left
                  rw [if_neg hbb]
                  exact Nat.add_zero _
              · intro e he
                exact absurd he (by simp)
              · intro ms' t' _ hm hne ho _
                injection hm with h1
                injection ho with h2
                subst h1; subst h2
                rw [effStage_setStage_self, hb.2, hb.1]
                by_cases hbb : (!(regex_extract ms).upi_id.isEmpty ||
                    !(regex_extract ms).phishing_link.isEmpty) = true
                · rw [if_pos hbb, if_pos (by simpa [jtruthyOpt, jtruthy] using hbb)]
                · rw [if_neg hbb, if_neg (by simpa [jtruthyOpt, jtruthy] using hbb)]
              · intro _ _
                rw [effStage_setStage_self, lookupStage_setStage_self]

theorem C5_witness :
    ((true : Bool) = true) ∧
    effStage (analyze true (some "hello") (some "c") (.ok "nonsense") []).2 "c" =
      effStage ([] : List (String × Nat)) "c" +
        (if jtruthyOpt (jget (analyze true (some "hello") (some "c")
          (.ok "nonsense") []).1 "is_scam") = true then 1 else 0) := by
  have h := C5_amended_stage_discipline true (some "hello") (some "c") (.ok "nonsense") []
  refine ⟨rfl, ?_⟩
  have h4 := h.2.2.2.1 "hello" "nonsense" rfl rfl (by decide) rfl
  exact h4 (fun j hj => by simp [show safe_json "nonsense" = none from rfl] at hj)

theorem scamStep_eval (cat sid : String) (store : List (String × Nat))
    (hparse : safe_json (scamOracleText cat) =
      some (.obj [("is_scam", .bool true), ("scam_type", .str cat)])) :
    scamRequestStep cat sid store =
      (.obj [("is_scam", .bool true), ("scam_type", .str cat),
        ("honeypot_response", .str (get_honeypot cat (effStage store sid))),
        ("ethical_note", .str ethicalNote)],
       setStage (initStore store sid) sid (effStage store sid + 1)) := by
  unfold scamRequestStep
  rw [analyze_ok_parsed "hello" (by decide) (some sid) store (scamOracleText cat) _ hparse rfl]
  rw [aiBranch_scam_eval (.obj [("is_scam", .bool true), ("scam_type", .str cat)])
    (effStage store ((some sid).getD "default")) rfl rfl]
  rfl

theorem scamRunStore_eval (cat sid : String)
    (hparse : safe_json (scamOracleText cat) =
      some (.obj [("is_scam", .bool true), ("scam_type", .str cat)])) :
    ∀ n, scamRunStore cat sid n = if n = 0 then [] else [(sid, n)] := by
  intro n
  induction n with
  | zero => rfl
  | succ k ih =>
    have hstep : scamRunStore cat sid (k + 1) =
        (scamRequestStep cat sid (scamRunStore cat sid k)).2 := rfl
    rw [hstep, ih]
    cases k with
    | zero =>
      rw [if_pos rfl, scamStep_eval cat sid [] hparse]
      simp [initStore, lookupStage, setStage, effStage]
    | succ k2 =>
      rw [if_neg (Nat.succ_ne_zero k2), scamStep_eval cat sid [(sid, k2 + 1)] hparse]
      simp [initStore, lookupStage, setStage, effStage]

theorem scamRun_honeypot_line (cat sid : String) (script : List String) (n : Nat)
    (hparse : safe_json (scamOracleText cat) =
      some (.obj [("is_scam", .bool true), ("scam_type", .str cat)]))
    (hlook : lookupPersona PERSONAS cat = some script)
    (hne : script.isEmpty = false) :
    jget (scamRunResp cat sid n) "honeypot_response" =
      some (.str (script.getD (n % script.length) "")) := by
  unfold scamRunResp
  rw [scamRunStore_eval cat sid hparse n]
  cases n with
  | zero =>
    rw [if_pos rfl, scamStep_eval cat sid [] hparse]
    have : effStage ([] : List (String × Nat)) sid = 0 := rfl
    rw [show jget (Json.obj [("is_scam", .bool true), ("scam_type", .str cat),
      ("honeypot_response", .str (get_honeypot cat (effStage ([] : List (String × Nat)) sid))),
      ("ethical_note", .str ethicalNote)]) "honeypot_response" =
        some (.str (get_honeypot cat (effStage ([] : List (String × Nat)) sid))) from rfl]
    rw [this, get_honeypot_known cat script 0 hlook hne]
  | succ k =>
    rw [if_neg (Nat.succ_ne_zero k), scamStep_eval cat sid [(sid, k + 1)] hparse]
    have heff : effStage [(sid, k + 1)] sid = k + 1 := by
      simp [effStage, lookupStage]
    rw [show jget (Json.obj [("is_scam", .bool true), ("scam_type", .str cat),
      ("honeypot_response", .str (get_honeypot cat (effStage [(sid, k + 1)] sid))),
      ("ethical_note", .str ethicalNote)]) "honeypot_response" =
        some (.str (get_honeypot cat (effStage [(sid, k + 1)] sid))) from rfl]
    rw [heff, get_honeypot_known cat script (k + 1) hlook hne]

/-- C4: for a fixed conversation identifier and a fixed scam category whose
persona script has length `L`, consecutive scam-verdict requests (starting
from a fresh conversation) return the honeypot lines `script[0], script[1],
...` cyclically: the `n`-th such request (0-based) returns the line at
position `n mod L`, i.e. the reply at the pre-increment stage value modulo
the script length. -/
theorem C4_honeypot_cyclic_tour (cat : String) (script : List String)
    (h : lookupPersona PERSONAS cat = some script) (sid : String) (n : Nat) :
    jget (scamRunResp cat sid n) "honeypot_response" =
      some (.str (script.getD (n % script.length) "")) := by
  have hcases : cat = "Bank Fraud" ∨ cat = "UPI Fraud" ∨ cat = "Job Scam" ∨
      cat = "Lottery Scam" ∨ cat = "KYC Scam" ∨ cat = "Phishing" := by
    by_contra hc
    push_neg at hc
    obtain ⟨h1, h2, h3, h4, h5, h6⟩ := hc
    simp [lookupPersona, PERSONAS, Ne.symm h1, Ne.symm h2, Ne.symm h3,
      Ne.symm h4, Ne.symm h5, Ne.symm h6] at h
  rcases hcases with hc | hc | hc | hc | hc | hc <;> subst hc <;>
    simp only [lookupPersona, PERSONAS, String.reduceEq, if_false, if_true,
      reduceIte, Option.some.injEq] at h <;> subst h <;>
    exact scamRun_honeypot_line _ sid _ n rfl rfl rfl

theorem C4_witness :
    lookupPersona PERSONAS "Job Scam" =
      some ["Is there really no interview?", "How much is the registration fee?",
        "Can I pay through UPI?"] ∧
    jget (scamRunResp "Job Scam" "w" 5) "honeypot_response" =
      some (.str (["Is there really no interview?", "How much is the registration fee?",
        "Can I pay through UPI?"].getD (5 % 3) "")) := by
  exact ⟨rfl, C4_honeypot_cyclic_tour "Job Scam" _ rfl "w" 5⟩

theorem mem_dropTrailingHyphens {l : List Char} {x : Char}
    (h : x ∈ dropTrailingHyphens l) : x ∈ l := by
  rw [dropTrailingHyphens, List.mem_reverse] at h
  exact List.mem_reverse.mp ((List.dropWhile_sublist _).subset h)

theorem upiTry_shape (w : Bool) (cs m rest : List Char)
    (h : upiTry w cs = some (m, rest)) :
    ∃ A B, m = A ++ '@' :: B ∧ A ≠ [] ∧ B ≠ [] ∧
      A.all isLocalChar = true ∧ B.all isDomChar = true := by
  unfold upiTry at h
  split at h
  · exact absurd h (by simp)
  · rename_i a tl heq
    split at h
    · exact absurd h (by simp)
    · split at h
      · rename_i rest1 hdrop
        split at h
        · exact absurd h (by simp)
        · rename_i b btl hb
          injection h with hpair
          injection hpair with hm hre
          subst hm
          refine ⟨a :: tl, b :: btl, rfl, by simp, by simp, ?_, ?_⟩
          · rw [← heq]
            exact List.all_takeWhile
          · rw [List.all_eq_true]
            intro x hx
            have hx2 : x ∈ dropTrailingHyphens (rest1.takeWhile isDomChar) := by
              rw [hb]
              exact hx
            exact List.mem_takeWhile_imp (mem_dropTrailingHyphens hx2)
      · exact absurd h (by simp)

theorem scanAllF_mem_imp {tryf : Bool → List Char → Option (List Char × List Char)}
    (P : List Char → Prop)
    (htry : ∀ w cs m rest, tryf w cs = some (m, rest) → P m) :
    ∀ fuel w cs m, m ∈ scanAllF tryf fuel w cs → P m := by
  intro fuel
  induction fuel with
  | zero =>
    intro w cs m hm
    simp [scanAllF] at hm
  | succ f ih =>
    intro w cs m hm
    cases cs with
    | nil => simp [scanAllF] at hm
    | cons c rest =>
      simp only [scanAllF] at hm
      cases htf : tryf w (c :: rest) with
      | none =>
        rw [htf] at hm
        exact ih _ _ _ hm
      | some pr =>
        obtain ⟨mm, rr⟩ := pr
        rw [htf] at hm
        rcases List.mem_cons.mp hm with rfl | hm2
        · exact htry _ _ _ _ htf
        · exact ih _ _ _ hm2

/-- C9 is false as stated: on message `"a@b@c"` the single whitespace token
is `"a@b@c"`, which contains two `@`, so the claimed characterization
("exactly the tokens of the message that contain exactly one `@`") demands an
empty `upi_id` list — yet the extractor reports the substring `"a@b"`, which
is not a token of the message. -/
theorem C9_counterexample :
    (regex_extract "a@b@c").upi_id = ["a@b"] ∧
    tokensOf "a@b@c" = ["a@b@c"] ∧
    ¬(("a@b" : String) ∈ tokensOf "a@b@c") ∧
    ("a@b@c" : String).data.count '@' = 2 := by
  refine ⟨rfl, rfl, by decide, rfl⟩

/-- C9 amended: every string reported in `upi_id` itself contains exactly one
`@`, with a non-empty local part of word/dot/hyphen characters and a
non-empty domain part of word/hyphen characters — but the reported values are
boundary-delimited substrings found by the scan, not whitespace tokens, so a
token containing more than one `@` can still contribute a `upi_id`
substring. -/
theorem C9_amended_upi_shape (msg : String) (u : String)
    (hu : u ∈ (regex_extract msg).upi_id) :
    u.data.count '@' = 1 ∧
    ∃ A B, u.data = A ++ '@' :: B ∧ A ≠ [] ∧ B ≠ [] ∧
      A.all isLocalChar = true ∧ B.all isDomChar = true := by
  simp only [regex_extract, findall] at hu
  obtain ⟨l, hl, he⟩ := List.mem_map.mp hu
  subst he
  have hdata : (String.mk l).data = l := rfl
  rw [hdata]
  have hshape := scanAllF_mem_imp
    (fun m => ∃ A B, m = A ++ '@' :: B ∧ A ≠ [] ∧ B ≠ [] ∧
      A.all isLocalChar = true ∧ B.all isDomChar = true)
    (fun w cs m rest h => upiTry_shape w cs m rest h) _ _ _ _ hl
  obtain ⟨A, B, rfl, hA, hB, hAl, hBd⟩ := hshape
  constructor
  · have hAcount : A.count '@' = 0 := by
      refine List.count_eq_zero_of_not_mem (fun hmem => ?_)
      have hx := (List.all_eq_true.mp hAl) '@' hmem
      exact absurd hx (by decide)
    have hBcount : B.count '@' = 0 := by
      refine List.count_eq_zero_of_not_mem (fun hmem => ?_)
      have hx := (List.all_eq_true.mp hBd) '@' hmem
      exact absurd hx (by decide)
    rw [List.count_append, hAcount, List.count_cons_self, hBcount]
  · exact ⟨A, B, rfl, hA, hB, hAl, hBd⟩

theorem C9_witness :
    (("test@upi" : String) ∈ (regex_extract "pay test@upi now").upi_id) ∧
    (("test@upi" : String).data.count '@' = 1 ∧
      ∃ A B, ("test@upi" : String).data = A ++ '@' :: B ∧ A ≠ [] ∧ B ≠ [] ∧
        A.all isLocalChar = true ∧ B.all isDomChar = true) := by
  refine ⟨by decide, C9_amended_upi_shape "pay test@upi now" "test@upi" (by decide)⟩

theorem isDigit_isWord (c : Char) (h : isDigitChar c = true) : isWordChar c = true := by
  rw [isDigitChar] at h
  simp [isWordChar, h]

theorem nonword_notdigit {c : Char} (h : isWordChar c = false) : isDigitChar c = false := by
  cases hd : isDigitChar c
  · rfl
  · rw [isDigit_isWord c hd] at h
    exact absurd h (by simp)

theorem takeWhile_append_all {p : Char → Bool} {r : List Char} (s : List Char)
    (h : r.all p = true) : (r ++ s).takeWhile p = r ++ s.takeWhile p := by
  induction r with
  | nil => simp
  | cons a l ih =>
    simp only [List.all_cons, Bool.and_eq_true] at h
    simp [List.takeWhile_cons, h.1, ih h.2]

theorem takeWhile_head_none {p : Char → Bool} {s : List Char}
    (h : ∀ c, s.head? = some c → p c = false) : s.takeWhile p = [] := by
  cases s with
  | nil => rfl
  | cons a l => simp [List.takeWhile_cons, h a rfl]

theorem run_takeWhile (r s : List Char) (hd : r.all isDigitChar = true)
    (hs : ∀ c, s.head? = some c → isWordChar c = false) :
    (r ++ s).takeWhile isDigitChar = r := by
  rw [takeWhile_append_all s hd,
    takeWhile_head_none (fun c hc => nonword_notdigit (hs c hc))]
  simp

theorem drop_takeWhile_dropWhile (p : Char → Bool) (l : List Char) :
    l.drop (l.takeWhile p).length = l.dropWhile p := by
  induction l with
  | nil => rfl
  | cons a t ih =>
    by_cases h : p a
    · simp [List.takeWhile_cons, List.dropWhile_cons, h, ih]
    · simp [List.takeWhile_cons, List.dropWhile_cons, h]

theorem bankTry_at_run (r s : List Char) (h10 : r.length = 10)
    (hd : r.all isDigitChar = true)
    (hs : ∀ c, s.head? = some c → isWordChar c = false) :
    bankTry false (r ++ s) = some (r, s) := by
  have htw : (r ++ s).takeWhile isDigitChar = r := run_takeWhile r s hd hs
  unfold bankTry
  rw [if_neg (by simp), htw, if_neg (by omega)]
  rw [show (r ++ s).drop r.length = s from List.drop_left _ _]
  cases s with
  | nil => rfl
  | cons sc st => simp [hs sc rfl]

theorem bankTry_spec (w : Bool) (cs m rest : List Char)
    (h : bankTry w cs = some (m, rest)) :
    cs = m ++ rest ∧ m.all isDigitChar = true ∧ 1 ≤ m.length := by
  unfold bankTry at h
  split at h
  · exact absurd h (by simp)
  · split at h
    · exact absurd h (by simp)
    · split at h
      · rename_i hdrop
        injection h with hpair
        injection hpair with hm hr
        subst hm
        subst hr
        refine ⟨?_, List.all_takeWhile, by omega⟩
        have hid := List.takeWhile_append_dropWhile isDigitChar cs
        rw [drop_takeWhile_dropWhile] at hdrop
        calc cs = cs.takeWhile isDigitChar ++ cs.dropWhile isDigitChar := hid.symm
          _ = cs.takeWhile isDigitChar ++ [] := by rw [hdrop]
      · split at h
        · exact absurd h (by simp)
        · rename_i d rest2 hdrop hword
          injection h with hpair
          injection hpair with hm hr
          subst hm
          subst hr
          refine ⟨?_, List.all_takeWhile, by omega⟩
          have hid := List.takeWhile_append_dropWhile isDigitChar cs
          rw [drop_takeWhile_dropWhile] at hdrop
          rw [← hdrop]
          exact hid.symm

theorem scan_bank_mem (r s : List Char) (h10 : r.length = 10)
    (hd : r.all isDigitChar = true)
    (hs : ∀ c, s.head? = some c → isWordChar c = false) :
    ∀ fuel p w, p.length + r.length + s.length < fuel →
      (∀ c, p.getLast? = some c → isWordChar c = false) →
      (p = [] → w = false) →
      r ∈ scanAllF bankTry fuel w (p ++ (r ++ s)) := by
  intro fuel
  induction fuel with
  | zero =>
    intro p w hlen hp hw
    exact absurd hlen (by omega)
  | succ f ih =>
    intro p w hlen hp hw
    cases p with
    | nil =>
      rw [hw rfl]
      obtain ⟨rc, rt, rfl⟩ : ∃ rc rt, r = rc :: rt := by
        cases r with
        | nil => simp at h10
        | cons a b => exact ⟨a, b, rfl⟩
      have htry := bankTry_at_run (rc :: rt) s h10 hd hs
      rw [List.cons_append] at htry
      simp only [List.nil_append, List.cons_append, scanAllF]
      rw [show bankTry false (rc :: rt.append s) = some (rc :: rt, s) from htry]
      exact List.mem_cons_self _ _
    | cons c pt =>
      simp only [List.cons_append, scanAllF]
      cases htf : bankTry w (c :: (pt ++ (r ++ s))) with
      | none =>
        show r ∈ scanAllF bankTry f (isWordChar c) (pt ++ (r ++ s))
        apply ih pt (isWordChar c)
        · simp only [List.length_cons] at hlen
          omega
        · intro c' hc'
          apply hp
          cases pt with
          | nil => simp at hc'
          | cons x xs =>
            rw [List.getLast?_cons_cons]
            exact hc'
        · intro hpt
          subst hpt
          exact hp c rfl
      | some pr =>
        obtain ⟨mm, rr⟩ := pr
        show r ∈ mm :: scanAllF bankTry f (isWordChar (mm.getLastD c)) rr
        obtain ⟨hcs, hmd, hm1⟩ := bankTry_spec _ _ _ _ htf
        have hcs' : (c :: pt) ++ (r ++ s) = mm ++ rr := by simpa using hcs
        by_cases hle : (c :: pt).length ≤ mm.length
        · exfalso
          have h1 : ((c :: pt) ++ (r ++ s)).take (c :: pt).length = c :: pt :=
            List.take_left _ _
          rw [hcs'] at h1
          have h2 : (mm ++ rr).take (c :: pt).length = mm.take (c :: pt).length := by
            rw [List.take_append_eq_append_take, Nat.sub_eq_zero_of_le hle]
            simp
          rw [h2] at h1
          obtain ⟨lastC, hlast⟩ : ∃ lc, (c :: pt).getLast? = some lc :=
            ⟨_, List.getLast?_eq_getLast _ (by simp)⟩
          have hlw := hp lastC hlast
          have hmemP : lastC ∈ c :: pt := List.mem_of_mem_getLast? hlast
          rw [← h1] at hmemP
          have hmemM : lastC ∈ mm := List.take_subset _ _ hmemP
          have hdig := List.all_eq_true.mp hmd lastC hmemM
          rw [isDigit_isWord lastC hdig] at hlw
          exact absurd hlw (by simp)
        · have hlt : mm.length < (c :: pt).length := by omega
          have hrr : rr = (c :: pt).drop mm.length ++ (r ++ s) := by
            have h1 : ((c :: pt) ++ (r ++ s)).drop mm.length = rr := by
              rw [hcs', List.drop_left]
            rw [← h1, List.drop_append_of_le_length (Nat.le_of_lt hlt)]
          have hdne : (c :: pt).drop mm.length ≠ [] := by
            rw [Ne, List.drop_eq_nil_iff]
            omega
          apply List.mem_cons_of_mem
          rw [hrr]
          apply ih ((c :: pt).drop mm.length) (isWordChar (mm.getLastD c))
          · rw [List.length_drop]
            simp only [List.length_cons] at hlen ⊢
            omega
          · intro c' hc'
            apply hp
            have hsplit := List.take_append_drop mm.length (c :: pt)
            have hgl : (c :: pt).getLast? = ((c :: pt).drop mm.length).getLast? := by
              conv_lhs => rw [← hsplit]
              rw [List.getLast?_append, hc']
              rfl
            rw [hgl]
            exact hc'
          · intro hnil
            exact absurd hnil hdne

theorem phoneCore_spec (cs m rest : List Char) (h : phoneCore cs = some (m, rest)) :
    m = cs.take 10 ∧ rest = cs.drop 10 ∧ m.length = 10 ∧ m.all isDigitChar = true := by
  unfold phoneCore at h
  split at h
  · split at h
    · split at h
      · rename_i hcond
        injection h with hpair
        injection hpair with hm hr
        subst hm
        subst hr
        exact ⟨rfl, rfl, hcond.1, hcond.2⟩
      · exact absurd h (by simp)
    · exact absurd h (by simp)
  · exact absurd h (by simp)

theorem phoneTry_spec (w : Bool) (cs m rest : List Char)
    (h : phoneTry w cs = some (m, rest)) :
    cs = m ++ rest ∧ 1 ≤ m.length ∧
      ((∃ t, m = '+' :: '9' :: '1' :: t ∧ t.length = 10 ∧ t.all isDigitChar = true) ∨
        (m.length = 10 ∧ m.all isDigitChar = true)) := by
  unfold phoneTry at h
  split at h
  · rename_i rest0
    cases hpc : phoneCore rest0 with
    | none =>
      rw [hpc] at h
      exact absurd h (by simp)
    | some pr =>
      obtain ⟨pm, prr⟩ := pr
      rw [hpc] at h
      simp only [Option.map_some'] at h
      injection h with hpair
      injection hpair with hm hr
      subst hm
      subst hr
      obtain ⟨hpm, hprr, hlen, hall⟩ := phoneCore_spec rest0 pm prr hpc
      refine ⟨?_, by simp, Or.inl ⟨pm, rfl, hlen, hall⟩⟩
      simp only [List.cons_append]
      have : rest0 = pm ++ prr := by
        rw [hpm, hprr, List.take_append_drop]
      rw [← this]
  · obtain ⟨hm, hr, hlen, hall⟩ := phoneCore_spec cs m rest h
    subst hm
    subst hr
    exact ⟨(List.take_append_drop 10 cs).symm, by omega, Or.inr ⟨hlen, hall⟩⟩

theorem phoneTry_at_run (w : Bool) (r s : List Char) (h10 : r.length = 10)
    (hd : r.all isDigitChar = true)
    (h6 : ∀ c, r.head? = some c → ('6' ≤ c ∧ c ≤ '9')) :
    phoneTry w (r ++ s) = some (r, s) := by
  obtain ⟨rc, rt, rfl⟩ : ∃ rc rt, r = rc :: rt := by
    cases r with
    | nil => simp at h10
    | cons a b => exact ⟨a, b, rfl⟩
  have hc6 := h6 rc rfl
  have hca : (rc :: rt) ++ s = rc :: (rt ++ s) := List.cons_append _ _ _
  have htake : (rc :: (rt ++ s)).take 10 = rc :: rt := by
    rw [← hca, ← h10]
    exact List.take_left _ _
  have hdrop : (rc :: (rt ++ s)).drop 10 = s := by
    rw [← hca, ← h10]
    exact List.drop_left _ _
  have hcore : phoneCore (rc :: (rt ++ s)) = some (rc :: rt, s) := by
    simp only [phoneCore]
    rw [if_pos hc6, htake, hdrop, if_pos ⟨h10, hd⟩]
  rw [hca]
  unfold phoneTry
  split
  · rename_i rest0 heq
    injection heq with h1 h2
    rw [h1] at hc6
    exact absurd hc6.1 (by decide)
  · exact hcore

theorem scan_phone_mem (r s : List Char) (h10 : r.length = 10)
    (hd : r.all isDigitChar = true)
    (h6 : ∀ c, r.head? = some c → ('6' ≤ c ∧ c ≤ '9'))
    (hs : ∀ c, s.head? = some c → isWordChar c = false) :
    ∀ fuel p w, p.length + r.length + s.length < fuel →
      (∀ c, p.getLast? = some c → isWordChar c = false) →
      r ∈ scanAllF phoneTry fuel w (p ++ (r ++ s)) := by
  intro fuel
  induction fuel with
  | zero =>
    intro p w hlen hp
    exact absurd hlen (by omega)
  | succ f ih =>
    intro p w hlen hp
    cases p with
    | nil =>
      obtain ⟨rc, rt, rfl⟩ : ∃ rc rt, r = rc :: rt := by
        cases r with
        | nil => simp at h10
        | cons a b => exact ⟨a, b, rfl⟩
      have htry := phoneTry_at_run w (rc :: rt) s h10 hd h6
      rw [List.cons_append] at htry
      simp only [List.nil_append, List.cons_append, scanAllF]
      rw [show phoneTry w (rc :: rt.append s) = some (rc :: rt, s) from htry]
      exact List.mem_cons_self _ _
    | cons c pt =>
      simp only [List.cons_append, scanAllF]
      cases htf : phoneTry w (c :: (pt ++ (r ++ s))) with
      | none =>
        show r ∈ scanAllF phoneTry f (isWordChar c) (pt ++ (r ++ s))
        apply ih pt (isWordChar c)
        · simp only [List.length_cons] at hlen
          omega
        · intro c' hc'
          apply hp
          cases pt with
          | nil => simp at hc'
          | cons x xs =>
            rw [List.getLast?_cons_cons]
            exact hc'
      | some pr =>
        obtain ⟨mm, rr⟩ := pr
        show r ∈ mm :: scanAllF phoneTry f (isWordChar (mm.getLastD c)) rr
        obtain ⟨hcs, hm1, hshape⟩ := phoneTry_spec _ _ _ _ htf
        have hcs' : (c :: pt) ++ (r ++ s) = mm ++ rr := by simpa using hcs
        by_cases hle : (c :: pt).length ≤ mm.length
        · exfalso
          have h1 : ((c :: pt) ++ (r ++ s)).take (c :: pt).length = c :: pt :=
            List.take_left _ _
          rw [hcs'] at h1
          have h2 : (mm ++ rr).take (c :: pt).length = mm.take (c :: pt).length := by
            rw [List.take_append_eq_append_take, Nat.sub_eq_zero_of_le hle]
            simp
          rw [h2] at h1
          obtain ⟨lastC, hlast⟩ : ∃ lc, (c :: pt).getLast? = some lc :=
            ⟨_, List.getLast?_eq_getLast _ (by simp)⟩
          have hlw := hp lastC hlast
          rcases hshape with ⟨t, rfl, ht10, htd⟩ | ⟨hml, hmd⟩
          · cases pt with
            | nil =>
              have hc' : c = '+' := by simpa using h1.symm
              subst hc'
              have hr9 : r ++ s = '9' :: '1' :: (t ++ rr) := by simpa using hcs'
              obtain ⟨r0, r1, rt2, rfl⟩ : ∃ a b t2, r = a :: b :: t2 := by
                cases r with
                | nil => simp at h10
                | cons a r' =>
                  cases r' with
                  | nil => simp at h10
                  | cons b t2 => exact ⟨a, b, t2, rfl⟩
              simp only [List.cons_append] at hr9
              injection hr9 with e1 hr9b
              injection hr9b with e2 hr9c
              have hrt2 : rt2.length = 8 := by
                simp only [List.length_cons] at h10
                omega
              have hteq : t = rt2 ++ s.take 2 := by
                have h3 : (rt2 ++ s).take 10 = t := by
                  rw [hr9c, List.take_append_eq_append_take, ht10,
                    show (10 : Nat) - 10 = 0 from rfl, List.take_zero, List.append_nil,
                    ← ht10, List.take_length]
                rw [← h3, List.take_append_eq_append_take,
                  List.take_of_length_le (by omega), hrt2]
              cases s with
              | nil =>
                rw [List.take_nil, List.append_nil] at hteq
                rw [hteq] at ht10
                omega
              | cons sc st =>
                have hscw := hs sc rfl
                have hsc_mem : sc ∈ t := by
                  rw [hteq]
                  simp
                have hdig := List.all_eq_true.mp htd sc hsc_mem
                rw [isDigit_isWord sc hdig] at hscw
                exact absurd hscw (by simp)
            | cons x xs =>
              rw [List.getLast?_cons_cons] at hlast
              have hmem2 : lastC ∈ x :: xs := List.mem_of_mem_getLast? hlast
              have hPeq' : c :: x :: xs =
                  '+' :: (('9' :: '1' :: t).take ((x :: xs).length)) := by
                simpa [List.take_succ_cons] using h1.symm
              injection hPeq' with e1 e2
              have hmem3 : lastC ∈ ('9' :: '1' :: t) := by
                rw [e2] at hmem2
                exact List.take_subset _ _ hmem2
              have hdig : isDigitChar lastC = true := by
                rcases List.mem_cons.mp hmem3 with rfl | hmem4
                · decide
                · rcases List.mem_cons.mp hmem4 with rfl | hmem5
                  · decide
                  · exact List.all_eq_true.mp htd lastC hmem5
              rw [isDigit_isWord lastC hdig] at hlw
              exact absurd hlw (by simp)
          · have hmemP : lastC ∈ c :: pt := List.mem_of_mem_getLast? hlast
            rw [← h1] at hmemP
            have hmemM : lastC ∈ mm := List.take_subset _ _ hmemP
            have hdig := List.all_eq_true.mp hmd lastC hmemM
            rw [isDigit_isWord lastC hdig] at hlw
            exact absurd hlw (by simp)
        · have hlt : mm.length < (c :: pt).length := by omega
          have hrr : rr = (c :: pt).drop mm.length ++ (r ++ s) := by
            have h1 : ((c :: pt) ++ (r ++ s)).drop mm.length = rr := by
              rw [hcs', List.drop_left]
            rw [← h1, List.drop_append_of_le_length (Nat.le_of_lt hlt)]
          have hdne : (c :: pt).drop mm.length ≠ [] := by
            rw [Ne, List.drop_eq_nil_iff]
            omega
          apply List.mem_cons_of_mem
          rw [hrr]
          apply ih ((c :: pt).drop mm.length) (isWordChar (mm.getLastD c))
          · rw [List.length_drop]
            simp only [List.length_cons] at hlen ⊢
            omega
          · intro c' hc'
            apply hp
            have hsplit := List.take_append_drop mm.length (c :: pt)
            have hgl : (c :: pt).getLast? = ((c :: pt).drop mm.length).getLast? := by
              conv_lhs => rw [← hsplit]
              rw [List.getLast?_append, hc']
              rfl
            rw [hgl]
            exact hc'

/-- C10: a message containing a standalone run of exactly 10 digits whose
first digit is 6–9 (standalone: bounded by non-word characters or the ends
of the message) has that same digit run reported both in `phone_number` and
in `bank_account` — the entity fields are not mutually exclusive, one
substring can appear under several fields of the same result. -/
theorem C10_ten_digit_run (p r s : List Char) (h10 : r.length = 10)
    (hd : r.all isDigitChar = true)
    (h6 : ∀ c, r.head? = some c → ('6' ≤ c ∧ c ≤ '9'))
    (hp : ∀ c, p.getLast? = some c → isWordChar c = false)
    (hs : ∀ c, s.head? = some c → isWordChar c = false) :
    String.mk r ∈ (regex_extract (String.mk (p ++ (r ++ s)))).phone_number ∧
    String.mk r ∈ (regex_extract (String.mk (p ++ (r ++ s)))).bank_account := by
  have hdata : (String.mk (p ++ (r ++ s))).data = p ++ (r ++ s) := rfl
  have hlen : p.length + r.length + s.length < (p ++ (r ++ s)).length + 1 := by
    simp [List.length_append]
    omega
  constructor
  · simp only [regex_extract, findall, hdata]
    exact List.mem_map_of_mem _
      (scan_phone_mem r s h10 hd h6 hs _ p false hlen hp)
  · simp only [regex_extract, findall, hdata]
    exact List.mem_map_of_mem _
      (scan_bank_mem r s h10 hd hs _ p false hlen hp (fun _ => rfl))

theorem C10_witness :
    ((("9876543210" : String).data.length = 10) ∧
      ("9876543210" : String).data.all isDigitChar = true ∧
      ("call " : String).data.getLast? = some ' ' ∧
      (" now" : String).data.head? = some ' ') ∧
    (String.mk ("9876543210" : String).data ∈
      (regex_extract (String.mk (("call " : String).data ++
        (("9876543210" : String).data ++ (" now" : String).data)))).phone_number ∧
    String.mk ("9876543210" : String).data ∈
      (regex_extract (String.mk (("call " : String).data ++
        (("9876543210" : String).data ++ (" now" : String).data)))).bank_account) := by
  refine ⟨⟨by decide, by decide, rfl, rfl⟩, ?_⟩
  have hlast : ("call " : String).data.getLast? = some ' ' := rfl
  have hhead : (" now" : String).data.head? = some ' ' := rfl
  refine C10_ten_digit_run _ _ _ (by decide) (by decide) ?_ ?_ ?_
  · intro c hc
    have h9 : ("9876543210" : String).data.head? = some '9' := rfl
    rw [h9] at hc
    injection hc with h
    subst h
    decide
  · intro c hc
    rw [hlast] at hc
    injection hc with h
    subst h
    decide
  · intro c hc
    rw [hhead] at hc
    injection hc with h
    subst h
    decide
